import Mathlib

/-!
# teledump: telemetry dashboard (`main.go`)

A shallow embedding of the renderers and of the query builder of `main.go`,
followed by the properties of the specification that were checked against it.

Go's `float64` is modelled by `F64`: IEEE-754 binary64 values, with every
arithmetic operation computed exactly over the rationals and then rounded to
the nearest representable value, ties to even.
-/

namespace Teledump

/-! ## binary64 arithmetic -/

/-- IEEE-754 binary64 values: `fin q` is the finite value `q` (`fin 0` is `+0`),
`nzero` is `-0`, `inf neg` is an infinity with its sign bit, `nan` is not-a-number. -/
inductive F64 where
  | fin (q : ℚ)
  | nzero
  | inf (neg : Bool)
  | nan
  deriving DecidableEq

namespace F64

/-- Two to the power `z`, as a rational. -/
def pow2 (z : ℤ) : ℚ :=
  if 0 ≤ z then ((2 ^ z.toNat : ℕ) : ℚ) else 1 / ((2 ^ (-z).toNat : ℕ) : ℚ)

/-- Number of halvings that bring `n` below 2, at most `fuel` of them. -/
def log2Fuel : ℕ → ℕ → ℕ
  | 0, _ => 0
  | fuel + 1, n => if n < 2 then 0 else log2Fuel fuel (n / 2) + 1

/-- Floor of the binary logarithm of a natural number (`0` for `0`). -/
def log2 (n : ℕ) : ℕ := log2Fuel n n

/-- Binary exponent of a positive rational: the `e` with `2^e ≤ a < 2^(e+1)`. -/
def expo (a : ℚ) : ℤ :=
  let g : ℤ := (log2 a.num.natAbs : ℤ) - (log2 a.den : ℤ)
  if pow2 g ≤ a then g else g - 1

/-- Nearest integer to a non-negative rational, ties to the even one. -/
def nearestEven (t : ℚ) : ℤ :=
  let k : ℤ := t.num / (t.den : ℤ)
  let f : ℚ := t - (k : ℚ)
  if f < 1 / 2 then k
  else if 1 / 2 < f then k + 1
  else if k % 2 = 0 then k else k + 1

/-- Sign bit of a value (`false` for `nan`, whose sign is never consulted). -/
def signbit : F64 → Bool
  | fin q => decide (q < 0)
  | nzero => true
  | inf neg => neg
  | nan => false

/-- The finite value with sign bit `neg` and magnitude `a ≥ 0`. -/
def mk (neg : Bool) (a : ℚ) : F64 :=
  if a = 0 then (if neg then nzero else fin 0)
  else fin (if neg then -a else a)

/-- Rounding of the exact magnitude `a ≥ 0` with sign bit `neg` to binary64:
53 significant bits, exponents from `-1022` (gradual underflow below) to `1023`,
nearest value with ties to even, overflow to infinity. -/
def round (neg : Bool) (a : ℚ) : F64 :=
  if a = 0 then mk neg 0
  else
    let e : ℤ := max (expo a) (-1022)
    let u : ℚ := pow2 (e - 52)
    let r : ℚ := (nearestEven (a / u) : ℚ) * u
    if pow2 1024 ≤ r then inf neg else mk neg r

/-- Whether the value is finite (a zero of either sign included). -/
def finite : F64 → Bool
  | fin _ => true
  | nzero => true
  | _ => false

/-- Real value of a finite float (`-0` has value `0`; `0` for the others). -/
def toRat : F64 → ℚ
  | fin q => q
  | _ => 0

/-- The constant with the value of a natural number (used for exactly representable literals). -/
def lit (n : ℕ) : F64 := fin (n : ℚ)

/-- Unary minus: flips the sign bit. -/
def neg : F64 → F64
  | fin q => if q = 0 then nzero else fin (-q)
  | nzero => fin 0
  | inf n => inf (!n)
  | nan => nan

/-- Go's `x < y` on float64: false as soon as one side is `nan`; `-0` equals `+0`. -/
def lt : F64 → F64 → Bool
  | nan, _ => false
  | _, nan => false
  | inf true, inf true => false
  | inf true, _ => true
  | _, inf true => false
  | inf false, _ => false
  | _, inf false => true
  | x, y => decide (x.toRat < y.toRat)

/-- Go's `x == y` on float64: `nan` equals nothing; `-0` equals `+0`. -/
def eq : F64 → F64 → Bool
  | nan, _ => false
  | _, nan => false
  | inf n, inf m => n == m
  | inf _, _ => false
  | _, inf _ => false
  | x, y => decide (x.toRat = y.toRat)

/-- Whether the value is a zero of either sign. -/
def isZero : F64 → Bool
  | fin q => decide (q = 0)
  | nzero => true
  | _ => false

/-- Go's `x / y` on float64. -/
def div : F64 → F64 → F64
  | nan, _ => nan
  | _, nan => nan
  | inf _, inf _ => nan
  | inf n, y => inf (xor n y.signbit)
  | x, inf m => mk (xor x.signbit m) 0
  | x, y =>
    if y.isZero then (if x.isZero then nan else inf (xor x.signbit y.signbit))
    else round (xor x.signbit y.signbit) (|x.toRat| / |y.toRat|)

/-- Go's `x * y` on float64. -/
def mul : F64 → F64 → F64
  | nan, _ => nan
  | _, nan => nan
  | inf n, inf m => inf (xor n m)
  | inf n, y => if y.isZero then nan else inf (xor n y.signbit)
  | x, inf m => if x.isZero then nan else inf (xor x.signbit m)
  | x, y => round (xor x.signbit y.signbit) (|x.toRat| * |y.toRat|)

/-- Go's `x - y` on float64. -/
def sub : F64 → F64 → F64
  | nan, _ => nan
  | _, nan => nan
  | inf n, inf m => if n = m then nan else inf n
  | inf n, _ => inf n
  | _, inf m => inf (!m)
  | x, y =>
    let s : ℚ := x.toRat - y.toRat
    if s = 0 then (if x.signbit && !y.signbit && x.isZero then nzero else fin 0)
    else round (decide (s < 0)) |s|

/-- Go's `math.Mod(x, y)`: the remainder of `x / y` truncated, with the sign of `x`; exact. -/
def mod : F64 → F64 → F64
  | nan, _ => nan
  | _, nan => nan
  | inf _, _ => nan
  | x, inf _ => x
  | x, y =>
    if y.isZero then nan
    else
      let a : ℚ := |x.toRat|
      let b : ℚ := |y.toRat|
      let k : ℤ := (a / b).num / ((a / b).den : ℤ)
      mk x.signbit (a - (k : ℚ) * b)

/-- Go's `math.Ceil`. -/
def ceil : F64 → F64
  | fin q =>
    let c : ℤ := -((-q).num / ((-q).den : ℤ))
    if c = 0 then mk (decide (q < 0)) 0 else fin (c : ℚ)
  | x => x

/-- Go's `math.Floor`. -/
def floor : F64 → F64
  | fin q => fin ((q.num / (q.den : ℤ) : ℤ) : ℚ)
  | x => x

/-- Go's conversion `int(x)` on a 64-bit target: truncation toward zero. For a value
outside the range of `int` (and for infinities and `nan`) the language leaves the result
to the implementation; the value taken here is the one of amd64, `-2^63`. -/
def toInt : F64 → ℤ
  | fin q =>
    let t : ℤ := if 0 ≤ q then q.num / (q.den : ℤ) else -((-q).num / ((-q).den : ℤ))
    if -(2 : ℤ) ^ 63 ≤ t ∧ t < (2 : ℤ) ^ 63 then t else -(2 : ℤ) ^ 63
  | nzero => 0
  | _ => -(2 : ℤ) ^ 63

end F64

/-! ## Data model -/

/-- What `json.Unmarshal` stores in an `interface{}`: a `float64`, a `bool`, a `string`,
`nil` (JSON `null`), a slice or a map. `nil` is also the zero value that indexing a map
returns for an absent key. -/
inductive Value where
  | num (v : F64)
  | bool (b : Bool)
  | str (s : String)
  | nil
  | arr (xs : List Value)
  | obj (kvs : List (String × Value))

/-- A decoded response, `map[string]interface{}`: `none` for a key that is not in the map. -/
abbrev Snapshot := String → Option Value

/-- The index expression `vals[k]`: the zero value `nil` for an absent key. -/
def Snapshot.get (vals : Snapshot) (k : String) : Value := (vals k).getD Value.nil

/-- The presence test `_, ok := vals[k]`. -/
def Snapshot.has (vals : Snapshot) (k : String) : Bool := (vals k).isSome

/-- The type assertion `x.(float64)` in its two-result form: the zero value and `false`
when `x` does not hold a `float64`. -/
def assertFloat : Value → F64 × Bool
  | Value.num v => (v, true)
  | _ => (F64.lit 0, false)

/-- The type assertion `x.(bool)` in its two-result form. -/
def assertBool : Value → Bool × Bool
  | Value.bool b => (b, true)
  | _ => (false, false)

/-- The registry entry type `resource`. -/
structure resource where
  jsonres : String
  jsonmax : String
  label : String
  unit : String

/-- The registry `tab`, in the order of the source text. -/
def tab : List (String × resource) :=
  [ ("Name", ⟨"v.name", "", "Name", ""⟩),
    ("Throt", ⟨"f.throttle", "", "Throttle", ""⟩),
    ("H", ⟨"n.heading", "", "Heading", "°"⟩),
    ("P", ⟨"n.pitch", "", "Pitch", "°"⟩),
    ("R", ⟨"n.roll", "", "Roll", "°"⟩),
    ("ToPro", ⟨"v.angleToPrograde", "", "ToPrograde", "°"⟩),
    ("Vel", ⟨"v.surfaceVelocity", "", "Surface velocity", "m/s"⟩),
    ("OVel", ⟨"v.orbitalVelocity", "", "Orbital velocity", "m/s"⟩),
    ("G", ⟨"v.geeForce", "", "Gee", "G"⟩),
    ("Atm", ⟨"v.atmosphericDensity", "", "Atmos density", ""⟩),
    ("Q", ⟨"v.dynamicPressure", "", "Q", ""⟩),
    ("Alt", ⟨"v.altitude", "", "Radar altitude", ""⟩),
    ("Pe", ⟨"o.PeA", "", "Pe", ""⟩),
    ("Ap", ⟨"o.ApA", "", "Ap", ""⟩),
    ("TTPe", ⟨"o.timeToPe", "", "Time to Pe", ""⟩),
    ("TTAp", ⟨"o.timeToAp", "", "Time to Ap", ""⟩),
    ("Incl", ⟨"o.inclination", "", "Inclination", "°"⟩),
    ("Ecc", ⟨"o.eccentricity", "", "Eccentricity", ""⟩),
    ("St", ⟨"mj.node", "", "Stage", ""⟩),
    ("SAS", ⟨"v.sasValue", "", "SAS", ""⟩),
    ("RCS", ⟨"v.rcsValue", "", "RCS", ""⟩),
    ("LGT", ⟨"v.lightValue", "", "LIGHT", ""⟩),
    ("BRK", ⟨"v.brakeValue", "", "BRK", ""⟩),
    ("GEAR", ⟨"v.gearValue", "", "GEAR", ""⟩),
    ("Kero", ⟨"r.resource[Kerosene]", "r.resourceMax[Kerosene]", "Kerosene", "L"⟩),
    ("LOX", ⟨"r.resource[LqdOxygen]", "r.resourceMax[LqdOxygen]", "Liquid oxygen", "L"⟩),
    ("Hydra", ⟨"r.resource[Hydrazine]", "r.resourceMax[Hydrazine]", "Hydrazine", "L"⟩),
    ("Aero", ⟨"r.resource[Aerozine50]", "r.resourceMax[Aerozine50]", "Aerozine 50", "L"⟩),
    ("NTO", ⟨"r.resource[NTO]", "r.resourceMax[NTO]", "NTO", "L"⟩),
    ("MMH", ⟨"r.resource[MMH]", "r.resourceMax[MMH]", "MMH", "L"⟩),
    ("Xen", ⟨"r.resource[XenonGas]", "r.resourceMax[XenonGas]", "Xenon gas", "L"⟩),
    ("UDMH", ⟨"r.resource[UDMH]", "r.resourceMax[UDMH]", "UDMH", "L"⟩),
    ("Mono", ⟨"r.resource[MonoPropellant]", "r.resourceMax[MonoPropellant]", "Monopropellant", "L"⟩),
    ("Elec", ⟨"r.resource[ElectricCharge]", "r.resourceMax[ElectricCharge]", "Electric charge", "Wh"⟩),
    ("Solid", ⟨"r.resource[SolidFuel]", "r.resourceMax[SolidFuel]", "Solid fuel", "kg"⟩),
    ("T", ⟨"v.missionTime", "", "Time", ""⟩) ]

/-- The index expression `tab[k]`: the zero `resource` for a key that is not in the registry. -/
def tabGet (k : String) : resource := (tab.lookup k).getD ⟨"", "", "", ""⟩

/-! ## Output -/

/-- An argument handed to `fmt.Printf`. -/
inductive Arg where
  | str (s : String)
  | int (n : ℤ)
  | val (x : Value)

/-- A call that writes to standard output: `fmt.Printf` with its format and arguments, or
`fmt.Println` with its arguments. -/
inductive Out where
  | printf (fmt : String) (args : List Arg)
  | println (args : List Arg)

/-- What a piece of the program did: it ran to its end having made the calls `out`, or it
made the calls `out` and then stopped in a run-time panic. -/
inductive Outcome where
  | done (out : List Out)
  | panic (out : List Out)

/-- Sequential composition: the second part runs only when the first did not panic. -/
def Outcome.seq : Outcome → Outcome → Outcome
  | Outcome.done o, Outcome.done o2 => Outcome.done (o ++ o2)
  | Outcome.done o, Outcome.panic o2 => Outcome.panic (o ++ o2)
  | Outcome.panic o, _ => Outcome.panic o

/-- The calls made, whether or not a panic ended them. -/
def Outcome.out : Outcome → List Out
  | Outcome.done o => o
  | Outcome.panic o => o

/-! ## Renderers -/

/-- The function `printtime`. -/
def printtime (vals : Snapshot) (k : String) : Outcome :=
  let (v, ok) := assertFloat (vals.get k)
  if !ok then Outcome.done []
  else
    let (pre, v) := if F64.lt v (F64.lit 0) then ("T-", F64.neg v) else ("T+", v)
    let s := F64.mod v (F64.lit 60)
    let m := F64.mod (F64.div v (F64.lit 60)) (F64.lit 60)
    let h := F64.mod (F64.div (F64.div v (F64.lit 60)) (F64.lit 60)) (F64.lit 60)
    let d := F64.mod (F64.div (F64.div (F64.div v (F64.lit 60)) (F64.lit 60)) (F64.lit 24)) (F64.lit 24)
    Outcome.done [Out.printf "%20s  %s %dd %dh %02dm %02ds\n"
      [Arg.str (tabGet k).label, Arg.str pre, Arg.int d.toInt, Arg.int h.toInt,
        Arg.int m.toInt, Arg.int s.toInt]]

/-- The function `printval`. -/
def printval (vals : Snapshot) (k : String) : Outcome :=
  if !vals.has k then Outcome.done []
  else Outcome.done [Out.printf "%20s %10.2f %s\n"
    [Arg.str (tabGet k).label, Arg.val (vals.get k), Arg.str (tabGet k).unit]]

/-- The function `printdist`. -/
def printdist (vals : Snapshot) (k : String) : Outcome :=
  let (v, ok) := assertFloat (vals.get k)
  if !ok then Outcome.done []
  else
    let (v, u) :=
      if F64.lt (F64.lit 1000000) v || F64.lt v (F64.fin (-1000000)) then
        (F64.div v (F64.lit 1000000), "Mm")
      else if F64.lt (F64.lit 1000) v || F64.lt v (F64.fin (-1000)) then
        (F64.div v (F64.lit 1000), "km")
      else (v, "m")
    Outcome.done [Out.printf "%20s %10.2f %s\n"
      [Arg.str (tabGet k).label, Arg.val (Value.num v), Arg.str u]]

/-- The local `ful` of `drawbar`. -/
def drawbar.ful (v max : F64) : ℤ :=
  F64.toInt (F64.ceil (F64.mul (F64.lit 40) (F64.div v max)))

/-- The local `emp` of `drawbar`. -/
def drawbar.emp (v max : F64) : ℤ :=
  F64.toInt (F64.floor (F64.mul (F64.lit 40) (F64.sub (F64.lit 1) (F64.div v max))))

/-- The function `drawbar`: each loop runs `max(bound, 0)` times. -/
def drawbar (v max : F64) : List Out :=
  List.replicate (drawbar.ful v max).toNat (Out.printf "█" [])
    ++ List.replicate (drawbar.emp v max).toNat (Out.printf "-" [])

/-- The function `printresource`. -/
def printresource (vals : Snapshot) (k : String) : Outcome :=
  let (v, ok) := assertFloat (vals.get k)
  if !ok then Outcome.done []
  else if F64.eq v (F64.fin (-1)) then Outcome.done []
  else
    let max :=
      let (m, ok) := assertFloat (vals.get (k ++ "max"))
      if ok then m else F64.lit 1
    Outcome.done ([Out.printf "%20s %10.2f %3s  %6.2f%%  "
        [Arg.str (tabGet k).label, Arg.val (Value.num v), Arg.str (tabGet k).unit,
          Arg.val (Value.num (F64.mul (F64.lit 100) (F64.div v max)))]]
      ++ drawbar v max ++ [Out.println []])

/-- The function `printpercent`: the one-result assertion `vals[k].(float64)` panics when
the value is not a `float64`. -/
def printpercent (vals : Snapshot) (k : String) : Outcome :=
  if !vals.has k then Outcome.done []
  else
    match vals.get k with
    | Value.num v =>
      Outcome.done [Out.printf "%20s %d%%\n"
        [Arg.str (tabGet k).label, Arg.int (F64.toInt (F64.mul v (F64.lit 100)))]]
    | _ => Outcome.panic []

/-- The function `printbool`. -/
def printbool (vals : Snapshot) (k : String) : Outcome :=
  let (b, ok) := assertBool (vals.get k)
  if !ok then Outcome.done []
  else if b then Outcome.done [Out.printf "[%s]" [Arg.str (tabGet k).label]]
  else Outcome.done [Out.printf " %s " [Arg.str (tabGet k).label]]

/-- The function `printorient`: `ok` is assigned four times and read once, after the last. -/
def printorient (vals : Snapshot) : Outcome :=
  let (h, _) := assertFloat (vals.get "H")
  let (p, _) := assertFloat (vals.get "P")
  let (r, _) := assertFloat (vals.get "R")
  let (_, ok) := assertFloat (vals.get "ToPro")
  if !ok then Outcome.done []
  else
    Outcome.done
      [ Out.printf "%20s % 07.2f° % 07.2f° % 07.2f°\n"
          [Arg.str "h p r", Arg.val (Value.num h), Arg.val (Value.num p), Arg.val (Value.num r)],
        Out.printf "%20s % 07.2f°\n" [Arg.str "Ang to prograde", Arg.val (vals.get "ToPro")] ]

/-! ## One refresh cycle -/

/-- The statements of `refresh` that follow the decoding of the response, from
`printtime(vals, "T")` to `printresource(vals, "Solid")`, in order (the `clear()` before
them is not part of it). -/
def render (vals : Snapshot) : Outcome :=
  [ printtime vals "T",
    Outcome.done [Out.println []],
    printval vals "St",
    Outcome.done [Out.printf "                    " []],
    printbool vals "SAS",
    printbool vals "RCS",
    printbool vals "LGT",
    printbool vals "BRK",
    printbool vals "GEAR",
    Outcome.done [Out.println []],
    printpercent vals "Throt",
    printorient vals,
    printval vals "Vel",
    printval vals "OVel",
    printval vals "G",
    printdist vals "Alt",
    printval vals "Atm",
    printval vals "Q",
    Outcome.done [Out.println []],
    printdist vals "Ap",
    printdist vals "Pe",
    printtime vals "TTAp",
    printtime vals "TTPe",
    printval vals "Incl",
    printval vals "Ecc",
    Outcome.done [Out.println []],
    printresource vals "Elec",
    printresource vals "Kero",
    printresource vals "LOX",
    printresource vals "Hydra",
    printresource vals "Aero",
    printresource vals "NTO",
    printresource vals "MMH",
    printresource vals "UDMH",
    printresource vals "Xen",
    printresource vals "Mono",
    printresource vals "Solid" ].foldl Outcome.seq (Outcome.done [])

/-- The fixed part of the request URL, up to and including the `?`. -/
def urlBase : String := "http://localhost:80/telemachus/datalink?"

/-- One pass of the loop `for k, r := range tab` of `refresh` on the entry `e`, with the
text built so far and the counter `i`; `n` is `len(tab)`. -/
def urlStep (n : ℤ) (st : String × ℤ) (e : String × resource) : String × ℤ :=
  let url := st.1 ++ (e.1 ++ "=" ++ e.2.jsonres)
  let url := if e.2.jsonmax ≠ "" then url ++ ("&" ++ e.1 ++ "max=" ++ e.2.jsonmax) else url
  let url := if st.2 < n - 1 then url ++ "&" else url
  (url, st.2 + 1)

/-- The URL that `refresh` requests when the map iteration visits the entries of the
registry in the order `order` (Go leaves the order of a `range` over a map unspecified;
each entry is visited once). -/
def buildURL (order : List (String × resource)) : String :=
  (order.foldl (urlStep (tab.length : ℤ)) (urlBase, 0)).1

/-- The query entries that the specification asks for one field: `key=remotePath`, and
`keymax=remoteMaxPath` when the field has a capacity path. -/
def entriesOf (e : String × resource) : List String :=
  (e.1 ++ "=" ++ e.2.jsonres) ::
    (if e.2.jsonmax ≠ "" then [e.1 ++ "max=" ++ e.2.jsonmax] else [])

/-- The query entries of the specification for the fields taken in the order `order`. -/
def queryEntries (order : List (String × resource)) : List String :=
  order.flatMap entriesOf

/-- The locals `d`, `h`, `m`, `s` of `printtime`, converted by `int(...)` as in its `Printf`
call, for the value `v` that the sign step leaves. -/
def printtime.fields (v : F64) : ℤ × ℤ × ℤ × ℤ :=
  let s := F64.mod v (F64.lit 60)
  let m := F64.mod (F64.div v (F64.lit 60)) (F64.lit 60)
  let h := F64.mod (F64.div (F64.div v (F64.lit 60)) (F64.lit 60)) (F64.lit 60)
  let d := F64.mod (F64.div (F64.div (F64.div v (F64.lit 60)) (F64.lit 60)) (F64.lit 24)) (F64.lit 24)
  (d.toInt, h.toInt, m.toInt, s.toInt)

/-- One statement of the rendering part of `refresh` (lines 212 to 251): a call of a
renderer with its key, a bare `fmt.Println()`, or the `fmt.Printf` of twenty spaces. -/
inductive Call where
  | time (k : String)
  | val (k : String)
  | dist (k : String)
  | res (k : String)
  | percent (k : String)
  | bool (k : String)
  | orient
  | newline
  | spaces

/-- The statements of the rendering part of `refresh`, in the order of the source. -/
def calls : List Call :=
  [ Call.time "T", Call.newline, Call.val "St", Call.spaces,
    Call.bool "SAS", Call.bool "RCS", Call.bool "LGT", Call.bool "BRK", Call.bool "GEAR",
    Call.newline,
    Call.percent "Throt", Call.orient,
    Call.val "Vel", Call.val "OVel", Call.val "G", Call.dist "Alt", Call.val "Atm", Call.val "Q",
    Call.newline,
    Call.dist "Ap", Call.dist "Pe", Call.time "TTAp", Call.time "TTPe",
    Call.val "Incl", Call.val "Ecc",
    Call.newline,
    Call.res "Elec", Call.res "Kero", Call.res "LOX", Call.res "Hydra", Call.res "Aero",
    Call.res "NTO", Call.res "MMH", Call.res "UDMH", Call.res "Xen", Call.res "Mono",
    Call.res "Solid" ]

/-- What a statement does on the snapshot `vals`. -/
def Call.run (vals : Snapshot) : Call → Outcome
  | Call.time k => printtime vals k
  | Call.val k => printval vals k
  | Call.dist k => printdist vals k
  | Call.res k => printresource vals k
  | Call.percent k => printpercent vals k
  | Call.bool k => printbool vals k
  | Call.orient => printorient vals
  | Call.newline => Outcome.done [Out.println []]
  | Call.spaces => Outcome.done [Out.printf "                    " []]

/-- The key that `refresh` passes to the renderer in a statement, if it passes one. -/
def Call.key : Call → Option String
  | Call.time k => some k
  | Call.val k => some k
  | Call.dist k => some k
  | Call.res k => some k
  | Call.percent k => some k
  | Call.bool k => some k
  | _ => none

/-- The keys with which the renderer called in a statement indexes the registry, in its
expressions `tab[k].label` and `tab[k].unit`: its own key `k` for the six keyed renderers,
none for `printorient`, whose two labels are string literals. -/
def Call.lookups : Call → List String
  | Call.time k => [k]
  | Call.val k => [k]
  | Call.dist k => [k]
  | Call.res k => [k]
  | Call.percent k => [k]
  | Call.bool k => [k]
  | _ => []

/-- The keys that `refresh` passes to `printresource`, in the order of the calls. -/
def resourceKeys : List String :=
  calls.filterMap (fun c => match c with | Call.res k => some k | _ => none)

/-- The text that `fmt.Printf` writes for a format made of literal characters and `%s`
verbs, each `%s` taking one string argument, which it writes unchanged; `none` for any
other verb, for a `%s` that does not meet a string argument, and for arguments left over. -/
def sprintfS : List Char → List Arg → Option String
  | [], [] => some ""
  | [], _ :: _ => none
  | '%' :: 's' :: rest, Arg.str s :: args => (sprintfS rest args).map (fun t => s ++ t)
  | '%' :: _, _ => none
  | c :: rest, args => (sprintfS rest args).map (fun t => String.singleton c ++ t)

/-- The text written by a call, for the calls that `sprintfS` covers. -/
def Out.text : Out → Option String
  | Out.printf fmt args => sprintfS fmt.toList args
  | Out.println [] => some "\n"
  | Out.println _ => none

/-- What the fetch of one cycle of `refresh` comes to: `http.Get` returned an error, or
`ioutil.ReadAll` did, or `json.Unmarshal` did (each of the last two with the text of its
error), or the body was decoded into a snapshot. -/
inductive Fetch where
  | getFailed
  | readFailed (err : String)
  | decodeFailed (err : String)
  | decoded (vals : Snapshot)

/-- An output action of one cycle: the call `clear()`, or a call that writes text. -/
inductive Act where
  | clear
  | out (o : Out)

/-- The function `refresh` after the request: the output actions of the cycle for each
result of the fetch, and whether the cycle ended in a panic. `fmt.Println(err)` writes the
text of the error. -/
def refresh : Fetch → List Act × Bool
  | Fetch.getFailed => ([Act.clear, Act.out (Out.println [Arg.str "no signal"])], false)
  | Fetch.readFailed err => ([Act.clear, Act.out (Out.println [Arg.str err])], false)
  | Fetch.decodeFailed err => ([Act.clear, Act.out (Out.println [Arg.str err])], false)
  | Fetch.decoded vals =>
    match render vals with
    | Outcome.done o => (Act.clear :: o.map Act.out, false)
    | Outcome.panic o => (Act.clear :: o.map Act.out, true)

/-! ## Concrete snapshots -/

/-- The snapshot that binds exactly the key `k`, to `x`. -/
def single (k : String) (x : Value) : Snapshot := fun key => if key = k then some x else none

/-- Pitch, roll and angle to prograde are numbers; the heading is absent. -/
def snapNoHeading : Snapshot := fun key =>
  if key = "P" then some (Value.num (F64.lit 1))
  else if key = "R" then some (Value.num (F64.lit 2))
  else if key = "ToPro" then some (Value.num (F64.lit 3))
  else none

/-- The decoded body that binds `Throt` to `true` and nothing else. -/
def snapThrotBool : Snapshot := single "Throt" (Value.bool true)

/-- Kerosene at 20 of a capacity of 40. -/
def snapKero : Snapshot := fun key =>
  if key = "Kero" then some (Value.num (F64.lit 20))
  else if key = "Keromax" then some (Value.num (F64.lit 40))
  else none

/-- Monopropellant reported as -1 (not installed), its capacity as 40. -/
def snapMonoAbsent : Snapshot := fun key =>
  if key = "Mono" then some (Value.num (F64.fin (-1)))
  else if key = "Monomax" then some (Value.num (F64.lit 40))
  else none

/-! ## Theorems -/

/-! ## Lemmas on binary64 arithmetic -/

namespace F64

/-- Powers of two are positive. -/
theorem pow2_pos (z : ℤ) : 0 < pow2 z := by
  unfold pow2
  split
  · positivity
  · positivity

/-- Rounding a non-negative rational to an integer gives a non-negative integer. -/
theorem nearestEven_nonneg {t : ℚ} (ht : 0 ≤ t) : 0 ≤ nearestEven t := by
  have hk : 0 ≤ t.num / (t.den : ℤ) :=
    Int.ediv_nonneg (Rat.num_nonneg.mpr ht) (Int.ofNat_nonneg _)
  unfold nearestEven
  simp only
  split_ifs <;> omega

/-- The sign bit of a finite value built from a sign bit and a magnitude is that sign bit. -/
theorem signbit_mk (neg : Bool) {a : ℚ} (ha : 0 ≤ a) : signbit (mk neg a) = neg := by
  unfold mk
  by_cases h0 : a = 0
  · cases neg <;> simp [h0, signbit]
  · have hpos : 0 < a := lt_of_le_of_ne ha (Ne.symm h0)
    cases neg <;> simp [h0, signbit, hpos, ha]

/-- Rounding keeps the sign bit it is given. -/
theorem signbit_round (neg : Bool) {a : ℚ} (ha : 0 ≤ a) : signbit (round neg a) = neg := by
  unfold round
  by_cases h0 : a = 0
  · simp [h0, signbit_mk]
  · simp only [h0, if_false]
    split_ifs
    · rfl
    · apply signbit_mk
      have hu := pow2_pos (max (expo a) (-1022) - 52)
      have := nearestEven_nonneg (div_nonneg ha hu.le)
      have : (0:ℚ) ≤ (nearestEven (a / pow2 (max (expo a) (-1022) - 52)) : ℚ) := by exact_mod_cast this
      positivity

end F64

/-- Division of a finite value by a positive finite one rounds the exact quotient of the magnitudes. -/
theorem F64.div_fin_pos (q : ℚ) {c : ℚ} (hc : 0 < c) :
    F64.div (F64.fin q) (F64.fin c) = F64.round (decide (q < 0)) (|q| / c) := by
  have hc0 : ¬ c < 0 := not_lt.mpr hc.le
  simp [F64.div, F64.isZero, F64.toRat, F64.signbit, hc.ne', hc0, abs_of_pos hc]

/-- Minus zero divided by a positive finite value is minus zero. -/
theorem F64.div_nzero_pos {c : ℚ} (hc : 0 < c) :
    F64.div F64.nzero (F64.fin c) = F64.nzero := by
  have hc0 : ¬ c < 0 := not_lt.mpr hc.le
  simp [F64.div, F64.isZero, F64.toRat, F64.signbit, hc.ne', hc0, F64.round, F64.mk]

/-- Division by a positive finite value keeps the sign bit of a finite dividend. -/
theorem F64.signbit_div_pos (v : F64) (hfin : v.finite = true) {c : ℚ} (hc : 0 < c) :
    F64.signbit (F64.div v (F64.fin c)) = F64.signbit v := by
  cases v with
  | fin q =>
    rw [F64.div_fin_pos q hc, F64.signbit_round _ (div_nonneg (abs_nonneg q) hc.le)]
    rfl
  | nzero => rw [F64.div_nzero_pos hc]
  | inf n => simp [F64.finite] at hfin
  | nan => simp [F64.finite] at hfin

/-- On finite values the comparison is the comparison of the real values. -/
theorem F64.lt_of_finite (x y : F64) (hx : x.finite = true) (hy : y.finite = true) :
    F64.lt x y = decide (x.toRat < y.toRat) := by
  cases x <;> cases y <;> simp_all [F64.finite, F64.lt, F64.toRat]

namespace F64

/-- The function `pow2` is the integer power of two. -/
theorem pow2_eq_zpow (z : ℤ) : pow2 z = (2 : ℚ) ^ z := by
  unfold pow2
  split_ifs with h
  · have hz : z = (z.toNat : ℤ) := (Int.toNat_of_nonneg h).symm
    conv_rhs => rw [hz]
    rw [zpow_natCast]
    push_cast
    rfl
  · have hz : z = -((-z).toNat : ℤ) := by
      rw [Int.toNat_of_nonneg (by omega)]; ring
    conv_rhs => rw [hz]
    rw [zpow_neg, zpow_natCast]
    push_cast
    rw [one_div]

/-- With enough fuel, `log2Fuel` brackets its argument between two consecutive powers of two. -/
theorem log2Fuel_spec (fuel : ℕ) : ∀ n : ℕ, 0 < n → n ≤ fuel →
    2 ^ log2Fuel fuel n ≤ n ∧ n < 2 ^ (log2Fuel fuel n + 1) := by
  induction fuel with
  | zero => intro n h0 hle; omega
  | succ f ih =>
    intro n h0 hle
    unfold log2Fuel
    split_ifs with h2
    · constructor <;> simp <;> omega
    · have hih := ih (n / 2) (by omega) (by omega)
      obtain ⟨l1, l2⟩ := hih
      rw [pow_succ, pow_succ]
      rw [pow_succ] at l2
      constructor <;> omega

/-- The function `log2` is the floor of the binary logarithm. -/
theorem log2_spec {n : ℕ} (hn : 0 < n) : 2 ^ log2 n ≤ n ∧ n < 2 ^ (log2 n + 1) :=
  log2Fuel_spec n n hn le_rfl


/-- The function `expo` is the binary exponent: `2^(expo a) ≤ a < 2^(expo a + 1)`. -/
theorem expo_spec {a : ℚ} (ha : 0 < a) : pow2 (expo a) ≤ a ∧ a < pow2 (expo a + 1) := by
  have hnum : 0 < a.num := Rat.num_pos.mpr ha
  have hn : 0 < a.num.natAbs := Int.natAbs_pos.mpr hnum.ne'
  have hd : 0 < a.den := a.den_pos
  obtain ⟨n1, n2⟩ := log2_spec hn
  obtain ⟨d1, d2⟩ := log2_spec hd
  have ha_eq : a = (a.num.natAbs : ℚ) / (a.den : ℚ) := by
    have h1 : ((a.num.natAbs : ℤ) : ℚ) = (a.num : ℚ) := by
      rw [Int.natAbs_of_nonneg hnum.le]
    have h2 : (a.num.natAbs : ℚ) = (a.num : ℚ) := by
      rw [← h1, Int.cast_natCast]
    rw [h2, Rat.num_div_den]
  have n1q : (2 : ℚ) ^ log2 a.num.natAbs ≤ (a.num.natAbs : ℚ) := by exact_mod_cast n1
  have n2q : (a.num.natAbs : ℚ) < (2 : ℚ) ^ (log2 a.num.natAbs + 1) := by exact_mod_cast n2
  have d1q : (2 : ℚ) ^ log2 a.den ≤ (a.den : ℚ) := by exact_mod_cast d1
  have d2q : (a.den : ℚ) < (2 : ℚ) ^ (log2 a.den + 1) := by exact_mod_cast d2
  have hdq : (0 : ℚ) < (a.den : ℚ) := by exact_mod_cast hd
  have hnq : (0 : ℚ) < (a.num.natAbs : ℚ) := by exact_mod_cast hn
  have two : (2 : ℚ) ≠ 0 := two_ne_zero
  have pA : (0 : ℚ) < (2 : ℚ) ^ log2 a.num.natAbs := by positivity
  have pB : (0 : ℚ) < (2 : ℚ) ^ log2 a.den := by positivity
  -- the two candidate exponents
  have low : (2 : ℚ) ^ ((log2 a.num.natAbs : ℤ) - (log2 a.den : ℤ) - 1) ≤ a := by
    have e : (2 : ℚ) ^ ((log2 a.num.natAbs : ℤ) - (log2 a.den : ℤ) - 1)
        = (2 : ℚ) ^ log2 a.num.natAbs / (2 : ℚ) ^ (log2 a.den + 1) := by
      have : ((log2 a.num.natAbs : ℤ) - (log2 a.den : ℤ) - 1)
          = (log2 a.num.natAbs : ℤ) - ((log2 a.den + 1 : ℕ) : ℤ) := by push_cast; ring
      rw [this, zpow_sub₀ two, zpow_natCast, zpow_natCast]
    rw [e]
    conv_rhs => rw [ha_eq]
    exact div_le_div₀ hnq.le n1q hdq d2q.le
  have high : a < (2 : ℚ) ^ ((log2 a.num.natAbs : ℤ) - (log2 a.den : ℤ) + 1) := by
    have e : (2 : ℚ) ^ ((log2 a.num.natAbs : ℤ) - (log2 a.den : ℤ) + 1)
        = (2 : ℚ) ^ (log2 a.num.natAbs + 1) / (2 : ℚ) ^ log2 a.den := by
      have : ((log2 a.num.natAbs : ℤ) - (log2 a.den : ℤ) + 1)
          = ((log2 a.num.natAbs + 1 : ℕ) : ℤ) - (log2 a.den : ℤ) := by push_cast; ring
      rw [this, zpow_sub₀ two, zpow_natCast, zpow_natCast]
    rw [e]
    conv_lhs => rw [ha_eq]
    exact div_lt_div₀ n2q d1q (by positivity) pB
  unfold expo
  simp only [pow2_eq_zpow]
  split_ifs with h
  · exact ⟨h, high⟩
  · refine ⟨low, ?_⟩
    rw [sub_add_cancel]
    exact not_le.mp h

/-- A positive rational below `2^N` has binary exponent below `N`. -/
theorem expo_lt_of_lt {a : ℚ} (ha : 0 < a) {N : ℤ} (h : a < (2 : ℚ) ^ N) : expo a < N := by
  by_contra hcon
  have hle : N ≤ expo a := not_lt.mp hcon
  have h1 := (expo_spec ha).1
  rw [pow2_eq_zpow] at h1
  have h2 : (2 : ℚ) ^ N ≤ (2 : ℚ) ^ expo a := zpow_le_zpow_right₀ (by norm_num) hle
  linarith


/-- Rounding to the nearest integer does not cross an integer bound. -/
theorem nearestEven_le {t : ℚ} {M : ℤ} (h : t ≤ (M : ℚ)) : nearestEven t ≤ M := by
  have hk : t.num / (t.den : ℤ) = ⌊t⌋ := Rat.floor_def.symm
  have hfl : ((⌊t⌋ : ℤ) : ℚ) ≤ t := Int.floor_le t
  have hkM : ⌊t⌋ ≤ M := by exact_mod_cast hfl.trans h
  unfold nearestEven
  simp only [hk]
  have step : ¬ (t - (⌊t⌋ : ℚ) < 1 / 2) → ⌊t⌋ + 1 ≤ M := by
    intro hf
    have : ((⌊t⌋ : ℤ) : ℚ) < (M : ℚ) := by linarith
    have : ⌊t⌋ < M := by exact_mod_cast this
    omega
  split_ifs with c1 c2 c3
  · exact hkM
  · exact step c1
  · exact hkM
  · exact step c1

/-- With a clear sign bit, `mk` is the constructor `fin`. -/
theorem mk_false {r : ℚ} : mk false r = fin r := by
  unfold mk
  by_cases h : r = 0
  · simp [h]
  · simp [h]

/-- Rounding a rational between 0 and a natural number below `2^53` gives a finite value in the same interval: rounding does not cross a representable integer, and does not overflow. -/
theorem round_le_nat (N : ℕ) (hN : (N : ℚ) < 2 ^ 53) {a : ℚ} (h0 : 0 ≤ a) (hle : a ≤ (N : ℚ)) :
    ∃ r : ℚ, round false a = fin r ∧ 0 ≤ r ∧ r ≤ (N : ℚ) := by
  unfold round
  by_cases ha0 : a = 0
  · refine ⟨0, ?_, le_rfl, by positivity⟩
    simp [ha0, mk]
  · have hpos : 0 < a := lt_of_le_of_ne h0 (Ne.symm ha0)
    simp only [ha0, if_false]
    have he : expo a < 53 := by
      apply expo_lt_of_lt hpos
      have : ((2 : ℚ) ^ (53 : ℤ)) = (2 : ℚ) ^ (53 : ℕ) := by norm_cast
      rw [this]
      linarith
    set e : ℤ := max (expo a) (-1022) with he_def
    have he52 : e ≤ 52 := by
      rw [he_def]; exact max_le (by omega) (by norm_num)
    have hu : 0 < pow2 (e - 52) := pow2_pos _
    set u : ℚ := pow2 (e - 52) with hu_def
    -- the bound is a whole number of units
    have hM : ((((N : ℤ) * (2 : ℤ) ^ (52 - e).toNat : ℤ)) : ℚ) * u = (N : ℚ) := by
      rw [hu_def, pow2_eq_zpow]
      have h1 : (((N : ℤ) * (2 : ℤ) ^ (52 - e).toNat : ℤ) : ℚ)
          = (N : ℚ) * (2 : ℚ) ^ (((52 - e).toNat : ℕ) : ℤ) := by
        push_cast; rw [zpow_natCast]
      rw [h1, Int.toNat_of_nonneg (by omega), mul_assoc, ← zpow_add₀ (two_ne_zero)]
      have : 52 - e + (e - 52) = 0 := by ring
      rw [this, zpow_zero, mul_one]
    have ht : a / u ≤ (((N : ℤ) * (2 : ℤ) ^ (52 - e).toNat : ℤ) : ℚ) := by
      rw [div_le_iff₀ hu, hM]; exact hle
    have hne := nearestEven_le ht
    have hne0 := nearestEven_nonneg (div_nonneg h0 hu.le)
    have hr0 : (0 : ℚ) ≤ (nearestEven (a / u) : ℚ) * u := by
      have : (0 : ℚ) ≤ (nearestEven (a / u) : ℚ) := by exact_mod_cast hne0
      positivity
    have hrN : (nearestEven (a / u) : ℚ) * u ≤ (N : ℚ) := by
      rw [← hM]
      have : (nearestEven (a / u) : ℚ) ≤ (((N : ℤ) * (2 : ℤ) ^ (52 - e).toNat : ℤ) : ℚ) := by
        exact_mod_cast hne
      exact mul_le_mul_of_nonneg_right this hu.le
    have hbig : ¬ pow2 1024 ≤ (nearestEven (a / u) : ℚ) * u := by
      rw [pow2_eq_zpow, not_le]
      have h53 : (2 : ℚ) ^ (53 : ℕ) ≤ (2 : ℚ) ^ (1024 : ℤ) := by
        have : ((2 : ℚ) ^ (53 : ℕ)) = (2 : ℚ) ^ (53 : ℤ) := by norm_cast
        rw [this]
        exact zpow_le_zpow_right₀ (by norm_num) (by norm_num)
      linarith
    refine ⟨(nearestEven (a / u) : ℚ) * u, ?_, hr0, hrN⟩
    rw [if_neg hbig, mk_false]


/-- On a non-negative finite value `ceil` is the integer ceiling. -/
theorem ceil_fin_nonneg {x : ℚ} (hx : 0 ≤ x) : ceil (fin x) = fin ((⌈x⌉ : ℤ) : ℚ) := by
  have hc : -((-x).num / ((-x).den : ℤ)) = ⌈x⌉ := by
    rw [← Rat.floor_def, Int.floor_neg, neg_neg]
  have hlt : ¬ x < 0 := not_lt.mpr hx
  unfold ceil
  simp only [hc]
  split_ifs with h
  · simp [h, hlt, mk]
  · rfl

/-- On a finite value `floor` is the integer floor. -/
theorem floor_fin (y : ℚ) : floor (fin y) = fin ((⌊y⌋ : ℤ) : ℚ) := by
  simp only [floor]
  rw [← Rat.floor_def]

/-- The conversion `int(x)` of an integer value in range is that integer. -/
theorem toInt_intCast {z : ℤ} (h1 : -(2 : ℤ) ^ 63 ≤ z) (h2 : z < (2 : ℤ) ^ 63) :
    toInt (fin (z : ℚ)) = z := by
  unfold toInt
  have e1 : (z : ℚ).num / (((z : ℚ).den : ℕ) : ℤ) = z := by simp
  have e2 : -((-(z : ℚ)).num / (((-(z : ℚ)).den : ℕ) : ℤ)) = z := by simp
  simp only [e1, e2, ite_self]
  rw [if_pos ⟨h1, h2⟩]

/-- The quotient of a value between zero and a positive capacity by that capacity is a finite value between 0 and 1. -/
theorem div_nonneg_le {a c : ℚ} (h0 : 0 ≤ a) (hle : a ≤ c) (hc : 0 < c) :
    ∃ r : ℚ, div (fin a) (fin c) = fin r ∧ 0 ≤ r ∧ r ≤ 1 := by
  have hlt : ¬ a < 0 := not_lt.mpr h0
  rw [div_fin_pos a hc]
  simp only [hlt, decide_False, abs_of_nonneg h0]
  have := round_le_nat 1 (by norm_num) (div_nonneg h0 hc.le)
    (by rw [Nat.cast_one]; exact (div_le_one hc).mpr hle)
  simpa using this

/-- Forty times a finite value between 0 and 1 is a finite value between 0 and 40. -/
theorem mul40_nonneg_le {r : ℚ} (h0 : 0 ≤ r) (hle : r ≤ 1) :
    ∃ x : ℚ, mul (lit 40) (fin r) = fin x ∧ 0 ≤ x ∧ x ≤ 40 := by
  have hlt : ¬ r < 0 := not_lt.mpr h0
  have e : mul (lit 40) (fin r) = round false (40 * r) := by
    have h40 : ¬ (40 : ℚ) < 0 := by norm_num
    simp [mul, lit, signbit, toRat, hlt, h40, abs_of_nonneg h0]
  rw [e]
  have := round_le_nat 40 (by norm_num) (mul_nonneg (by norm_num) h0 : (0 : ℚ) ≤ 40 * r)
    (by push_cast; linarith)
  simpa using this

/-- One minus a finite value between 0 and 1 is a finite value between 0 and 1. -/
theorem one_sub_nonneg_le {r : ℚ} (h0 : 0 ≤ r) (hle : r ≤ 1) :
    ∃ s : ℚ, sub (lit 1) (fin r) = fin s ∧ 0 ≤ s ∧ s ≤ 1 := by
  by_cases h : (1 : ℚ) - r = 0
  · refine ⟨0, ?_, le_rfl, by norm_num⟩
    simp [sub, lit, signbit, toRat, h]
  · have hlt : ¬ (1 : ℚ) - r < 0 := by linarith
    have hnn : (0 : ℚ) ≤ 1 - r := by linarith
    have e : sub (lit 1) (fin r) = round false (1 - r) := by
      simp [sub, lit, signbit, toRat, h, hlt, abs_of_nonneg hnn]
    rw [e]
    have := round_le_nat 1 (by norm_num) hnn (by push_cast; linarith)
    simpa using this

end F64

/-- For a value between zero and a positive capacity, the two products that `drawbar` forms
are finite, between 0 and 40, and the cell counts are their ceiling and their floor. -/
theorem drawbar_counts {a c : ℚ} (h0 : 0 ≤ a) (hle : a ≤ c) (hc : 0 < c) :
    ∃ x y : ℚ,
      F64.mul (F64.lit 40) (F64.div (F64.fin a) (F64.fin c)) = F64.fin x ∧
      F64.mul (F64.lit 40) (F64.sub (F64.lit 1) (F64.div (F64.fin a) (F64.fin c))) = F64.fin y ∧
      0 ≤ x ∧ x ≤ 40 ∧ 0 ≤ y ∧ y ≤ 40 ∧
      drawbar.ful (F64.fin a) (F64.fin c) = ⌈x⌉ ∧
      drawbar.emp (F64.fin a) (F64.fin c) = ⌊y⌋ := by
  obtain ⟨r, hr, r0, r1⟩ := F64.div_nonneg_le h0 hle hc
  obtain ⟨x, hx, x0, x1⟩ := F64.mul40_nonneg_le r0 r1
  obtain ⟨s, hs, s0, s1⟩ := F64.one_sub_nonneg_le r0 r1
  obtain ⟨y, hy, y0, y1⟩ := F64.mul40_nonneg_le s0 s1
  have cx0 : 0 ≤ ⌈x⌉ := Int.ceil_nonneg x0
  have cx1 : ⌈x⌉ ≤ 40 := Int.ceil_le.mpr (by exact_mod_cast x1)
  have fy0 : 0 ≤ ⌊y⌋ := Int.floor_nonneg.mpr y0
  have fy1 : ⌊y⌋ ≤ 40 := by
    have : ((⌊y⌋ : ℤ) : ℚ) ≤ 40 := (Int.floor_le y).trans y1
    exact_mod_cast this
  refine ⟨x, y, ?_, ?_, x0, x1, y0, y1, ?_, ?_⟩
  · rw [hr, hx]
  · rw [hr, hs, hy]
  · unfold drawbar.ful
    rw [hr, hx, F64.ceil_fin_nonneg x0, F64.toInt_intCast (by omega) (by omega)]
  · unfold drawbar.emp
    rw [hr, hs, hy, F64.floor_fin, F64.toInt_intCast (by omega) (by omega)]

/-- The arithmetic on known binary64 results: `1/3`, `4/5`, `1 - 4/5` (below `1/5`),
`40 * (1 - 4/5)` (below 8), `100 * (1/3)`, `90000/60/60/24`, and `Mod(-125, 60) = -5`. -/
theorem F64.known_values :
    F64.div (F64.lit 1) (F64.lit 3) = F64.fin (6004799503160661 / 2 ^ 54) ∧
    F64.div (F64.lit 4) (F64.lit 5) = F64.fin (3602879701896397 / 2 ^ 52) ∧
    F64.sub (F64.lit 1) (F64.div (F64.lit 4) (F64.lit 5)) = F64.fin (900719925474099 / 2 ^ 52) ∧
    F64.mul (F64.lit 40) (F64.sub (F64.lit 1) (F64.div (F64.lit 4) (F64.lit 5)))
      = F64.fin (4503599627370495 / 2 ^ 49) ∧
    F64.mul (F64.lit 100) (F64.div (F64.lit 1) (F64.lit 3))
      = F64.fin (2345624805922133 / 2 ^ 46) ∧
    F64.div (F64.div (F64.div (F64.lit 90000) (F64.lit 60)) (F64.lit 60)) (F64.lit 24)
      = F64.fin (4691249611844267 / 2 ^ 52) ∧
    F64.mod (F64.fin (-125)) (F64.lit 60) = F64.fin (-5) := by
  refine ⟨by decide!, by decide!, by decide!, by decide!, by decide!, by decide!, by decide!⟩

/-! ## Claims -/

/-- C1 (the code departs from the specification): with pitch, roll and angle to prograde present as
numbers and the heading absent, `printorient` still prints its two lines, the heading
shown as the zero value. -/
theorem printorient_prints_without_heading :
    printorient snapNoHeading = Outcome.done
      [ Out.printf "%20s % 07.2f° % 07.2f° % 07.2f°\n"
          [Arg.str "h p r", Arg.val (Value.num (F64.lit 0)), Arg.val (Value.num (F64.lit 1)),
            Arg.val (Value.num (F64.lit 2))],
        Out.printf "%20s % 07.2f°\n"
          [Arg.str "Ang to prograde", Arg.val (Value.num (F64.lit 3))] ] := by
  rfl

/-- C2 (the code departs from the specification): on the decoded body that binds `Throt` to `true`
the rendering pass of `refresh` stops in a run-time panic, raised by the one-result type
assertion of `printpercent`, after the calls that precede `printpercent`. -/
theorem render_panics_on_bool_throttle :
    render snapThrotBool = Outcome.panic
      [Out.println [], Out.printf "                    " [], Out.println []] := by
  rfl

/-- C3 (counterexample): on the value 90000 under the key `T`, `printtime` does not print
the fields `0d 1h 00m 00s`. -/
theorem printtime_90000_not_0d_1h :
    printtime (single "T" (Value.num (F64.lit 90000))) "T" ≠ Outcome.done
      [Out.printf "%20s  %s %dd %dh %02dm %02ds\n"
        [Arg.str "Time", Arg.str "T+", Arg.int 0, Arg.int 1, Arg.int 0, Arg.int 0]] := by
  simp [printtime, single, Snapshot.get, assertFloat]
  decide!

/-- C3 (amended): for a snapshot that binds the key to the number 90000, `printtime`
prints the prefix `T+`, the day field 1, the minute field 0 and the second field 0. -/
theorem printtime_90000 (vals : Snapshot) (k : String)
    (hv : vals k = some (Value.num (F64.lit 90000))) :
    ∃ h : ℤ, printtime vals k = Outcome.done
      [Out.printf "%20s  %s %dd %dh %02dm %02ds\n"
        [Arg.str (tabGet k).label, Arg.str "T+", Arg.int 1, Arg.int h, Arg.int 0, Arg.int 0]] := by
  refine ⟨25, ?_⟩
  simp [printtime, Snapshot.get, hv, assertFloat]
  decide!

/-- Witness of `printtime_90000`: the mission clock `T` at 90000 seconds. -/
theorem printtime_90000_witness :
    ∃ h : ℤ, printtime (single "T" (Value.num (F64.lit 90000))) "T" = Outcome.done
      [Out.printf "%20s  %s %dd %dh %02dm %02ds\n"
        [Arg.str (tabGet "T").label, Arg.str "T+", Arg.int 1, Arg.int h, Arg.int 0, Arg.int 0]] :=
  printtime_90000 (single "T" (Value.num (F64.lit 90000))) "T" (by rfl)

/-- C4: for every finite number `v` under the key, `printdist` selects the unit and the
divisor from the magnitude of `v` alone: `v` itself and `m` up to 1000, `v / 1000` and `km`
above 1000 and up to 1000000, `v / 1000000` and `Mm` above; the quotient keeps the sign bit
of `v`. So 500 is printed as 500 m, 1500 as 1.5 km, 2500000 as 2.5 Mm and -1500 as
-1.5 km. -/
theorem printdist_scale :
    (∀ (vals : Snapshot) (k : String) (v : F64), vals k = some (Value.num v) →
      v.finite = true →
      (|v.toRat| ≤ 1000 →
        printdist vals k = Outcome.done [Out.printf "%20s %10.2f %s\n"
          [Arg.str (tabGet k).label, Arg.val (Value.num v), Arg.str "m"]]) ∧
      (1000 < |v.toRat| → |v.toRat| ≤ 1000000 →
        printdist vals k = Outcome.done [Out.printf "%20s %10.2f %s\n"
          [Arg.str (tabGet k).label, Arg.val (Value.num (F64.div v (F64.lit 1000))),
            Arg.str "km"]]) ∧
      (1000000 < |v.toRat| →
        printdist vals k = Outcome.done [Out.printf "%20s %10.2f %s\n"
          [Arg.str (tabGet k).label, Arg.val (Value.num (F64.div v (F64.lit 1000000))),
            Arg.str "Mm"]]) ∧
      F64.signbit (F64.div v (F64.lit 1000)) = F64.signbit v ∧
      F64.signbit (F64.div v (F64.lit 1000000)) = F64.signbit v) ∧
    (∀ k : String, printdist (single k (Value.num (F64.lit 500))) k =
      Outcome.done [Out.printf "%20s %10.2f %s\n"
        [Arg.str (tabGet k).label, Arg.val (Value.num (F64.lit 500)), Arg.str "m"]]) ∧
    (∀ k : String, printdist (single k (Value.num (F64.lit 1500))) k =
      Outcome.done [Out.printf "%20s %10.2f %s\n"
        [Arg.str (tabGet k).label, Arg.val (Value.num (F64.fin (3 / 2))), Arg.str "km"]]) ∧
    (∀ k : String, printdist (single k (Value.num (F64.lit 2500000))) k =
      Outcome.done [Out.printf "%20s %10.2f %s\n"
        [Arg.str (tabGet k).label, Arg.val (Value.num (F64.fin (5 / 2))), Arg.str "Mm"]]) ∧
    (∀ k : String, printdist (single k (Value.num (F64.fin (-1500)))) k =
      Outcome.done [Out.printf "%20s %10.2f %s\n"
        [Arg.str (tabGet k).label, Arg.val (Value.num (F64.fin (-3 / 2))), Arg.str "km"]]) := by
  have d1 : F64.div (F64.lit 1500) (F64.lit 1000) = F64.fin (3 / 2) := by decide!
  have d2 : F64.div (F64.lit 2500000) (F64.lit 1000000) = F64.fin (5 / 2) := by decide!
  have d3 : F64.div (F64.fin (-1500)) (F64.lit 1000) = F64.fin (-3 / 2) := by decide!
  have hs : ∀ (k : String) (x : Value), single k x k = some x := by
    intro k x; simp [single]
  suffices gen : (∀ (vals : Snapshot) (k : String) (v : F64), vals k = some (Value.num v) →
          v.finite = true →
          (|v.toRat| ≤ 1000 →
            printdist vals k = Outcome.done [Out.printf "%20s %10.2f %s\n"
              [Arg.str (tabGet k).label, Arg.val (Value.num v), Arg.str "m"]]) ∧
          (1000 < |v.toRat| → |v.toRat| ≤ 1000000 →
            printdist vals k = Outcome.done [Out.printf "%20s %10.2f %s\n"
              [Arg.str (tabGet k).label, Arg.val (Value.num (F64.div v (F64.lit 1000))),
                Arg.str "km"]]) ∧
          (1000000 < |v.toRat| →
            printdist vals k = Outcome.done [Out.printf "%20s %10.2f %s\n"
              [Arg.str (tabGet k).label, Arg.val (Value.num (F64.div v (F64.lit 1000000))),
                Arg.str "Mm"]]) ∧
          F64.signbit (F64.div v (F64.lit 1000)) = F64.signbit v ∧
          F64.signbit (F64.div v (F64.lit 1000000)) = F64.signbit v) by
    refine ⟨gen, ?_, ?_, ?_, ?_⟩
    · intro k
      exact (gen (single k (Value.num (F64.lit 500))) k (F64.lit 500) (hs k _) rfl).1 (by norm_num [F64.lit, F64.toRat])
    · intro k
      have h := (gen (single k (Value.num (F64.lit 1500))) k (F64.lit 1500) (hs k _) rfl).2.1 (by norm_num [F64.lit, F64.toRat])
        (by norm_num [F64.lit, F64.toRat])
      rwa [d1] at h
    · intro k
      have h := (gen (single k (Value.num (F64.lit 2500000))) k (F64.lit 2500000) (hs k _) rfl).2.2.1 (by norm_num [F64.lit, F64.toRat])
      rwa [d2] at h
    · intro k
      have h := (gen (single k (Value.num (F64.fin (-1500)))) k (F64.fin (-1500)) (hs k _) rfl).2.1 (by norm_num [F64.toRat])
        (by norm_num [F64.toRat])
      rwa [d3] at h
  intro vals k v hv hfin
  have hget : assertFloat (vals.get k) = (v, true) := by simp [Snapshot.get, hv, assertFloat]
  have h1 : F64.lt (F64.lit 1000000) v = decide (1000000 < v.toRat) := by
    rw [F64.lt_of_finite (F64.lit _) v rfl hfin]; simp [F64.lit, F64.toRat]
  have h2 : F64.lt v (F64.fin (-1000000)) = decide (v.toRat < -1000000) := by
    rw [F64.lt_of_finite v (F64.fin _) hfin rfl]; simp [F64.toRat]
  have h3 : F64.lt (F64.lit 1000) v = decide (1000 < v.toRat) := by
    rw [F64.lt_of_finite (F64.lit _) v rfl hfin]; simp [F64.lit, F64.toRat]
  have h4 : F64.lt v (F64.fin (-1000)) = decide (v.toRat < -1000) := by
    rw [F64.lt_of_finite v (F64.fin _) hfin rfl]; simp [F64.toRat]
  refine ⟨?_, ?_, ?_, ?_, ?_⟩
  · intro h
    rw [abs_le] at h
    have a1 : ¬ 1000000 < v.toRat := by linarith [h.2]
    have a2 : ¬ v.toRat < -1000000 := by linarith [h.1]
    have a3 : ¬ 1000 < v.toRat := by linarith [h.2]
    have a4 : ¬ v.toRat < -1000 := by linarith [h.1]
    simp [printdist, hget, h1, h2, h3, h4, a1, a2, a3, a4]
  · intro h hle
    rw [abs_le] at hle
    rw [lt_abs] at h
    have a1 : ¬ 1000000 < v.toRat := by linarith [hle.2]
    have a2 : ¬ v.toRat < -1000000 := by linarith [hle.1]
    have a3 : 1000 < v.toRat ∨ v.toRat < -1000 := by
      rcases h with h | h
      · exact Or.inl h
      · exact Or.inr (by linarith)
    simp [printdist, hget, h1, h2, h3, h4, a1, a2, a3]
  · intro h
    rw [lt_abs] at h
    have a1 : 1000000 < v.toRat ∨ v.toRat < -1000000 := by
      rcases h with h | h
      · exact Or.inl h
      · exact Or.inr (by linarith)
    simp [printdist, hget, h1, h2, a1]
  · exact F64.signbit_div_pos v hfin (by norm_num)
  · exact F64.signbit_div_pos v hfin (by norm_num)

/-- Witness of `printdist_scale`: 1500 under `Alt` is printed as 1.5 km; the quotient
1500/1000 is the float 1.5. -/
theorem printdist_scale_witness :
    printdist (single "Alt" (Value.num (F64.lit 1500))) "Alt" =
      Outcome.done [Out.printf "%20s %10.2f %s\n"
        [Arg.str (tabGet "Alt").label, Arg.val (Value.num (F64.div (F64.lit 1500) (F64.lit 1000))),
          Arg.str "km"]] :=
  (printdist_scale.1 (single "Alt" (Value.num (F64.lit 1500))) "Alt" (F64.lit 1500)
    (by rfl) (by rfl)).2.1 (by norm_num [F64.lit, F64.toRat]) (by norm_num [F64.lit, F64.toRat])

/-- The comparison `v == -1` holds for the value -1 only. -/
theorem F64.eq_neg_one (v : F64) : F64.eq v (F64.fin (-1)) = true ↔ v = F64.fin (-1) := by
  cases v <;> simp [F64.eq, F64.toRat]

/-- The two outcomes of the two-result assertion `x.(float64)`. -/
theorem assertFloat_cases (x : Value) :
    (∃ m, x = Value.num m ∧ assertFloat x = (m, true)) ∨
    ((∀ m, x ≠ Value.num m) ∧ assertFloat x = (F64.lit 0, false)) := by
  cases x <;> simp [assertFloat]

/-- C5: for a number `v` other than -1 under `k`, `printresource` takes as capacity the
number under `k ++ "max"` when there is one and 1.0 otherwise, prints the percentage
`100 * (v / capacity)` and draws `ceil (40 * (v / capacity))` filled cells followed by
`floor (40 * (1 - v / capacity))` empty ones, then ends the line; the arithmetic is the
float64 arithmetic of the code. For `0 ≤ v ≤ capacity` with `capacity > 0` both products
are finite and the counts are their ceiling and floor, neither negative. So 20 of 40 gives
20 + 20 cells, 25 of 40 gives 25 + 15, and 1 of 3 gives 14 + 26. -/
theorem printresource_bar :
    (∀ (vals : Snapshot) (k : String) (v : F64), vals k = some (Value.num v) →
      v ≠ F64.fin (-1) →
      ∃ cap : F64,
        (∀ m, vals (k ++ "max") = some (Value.num m) → cap = m) ∧
        ((∀ m, vals (k ++ "max") ≠ some (Value.num m)) → cap = F64.lit 1) ∧
        printresource vals k = Outcome.done
          ([Out.printf "%20s %10.2f %3s  %6.2f%%  "
              [Arg.str (tabGet k).label, Arg.val (Value.num v), Arg.str (tabGet k).unit,
                Arg.val (Value.num (F64.mul (F64.lit 100) (F64.div v cap)))]]
            ++ List.replicate (drawbar.ful v cap).toNat (Out.printf "█" [])
            ++ List.replicate (drawbar.emp v cap).toNat (Out.printf "-" [])
            ++ [Out.println []]) ∧
        (∀ a c : ℚ, v = F64.fin a → cap = F64.fin c → 0 ≤ a → a ≤ c → 0 < c →
          ∃ x y : ℚ,
            F64.mul (F64.lit 40) (F64.div v cap) = F64.fin x ∧
            F64.mul (F64.lit 40) (F64.sub (F64.lit 1) (F64.div v cap)) = F64.fin y ∧
            drawbar.ful v cap = ⌈x⌉ ∧ drawbar.emp v cap = ⌊y⌋ ∧
            0 ≤ drawbar.ful v cap ∧ 0 ≤ drawbar.emp v cap)) ∧
    (drawbar.ful (F64.lit 20) (F64.lit 40) = 20 ∧ drawbar.emp (F64.lit 20) (F64.lit 40) = 20) ∧
    (drawbar.ful (F64.lit 25) (F64.lit 40) = 25 ∧ drawbar.emp (F64.lit 25) (F64.lit 40) = 15) ∧
    (drawbar.ful (F64.lit 1) (F64.lit 3) = 14 ∧ drawbar.emp (F64.lit 1) (F64.lit 3) = 26) := by
  refine ⟨?_, ⟨by decide!, by decide!⟩, ⟨by decide!, by decide!⟩, ⟨by decide!, by decide!⟩⟩
  intro vals k v hv hne
  have hget : assertFloat (vals.get k) = (v, true) := by simp [Snapshot.get, hv, assertFloat]
  have hneq : F64.eq v (F64.fin (-1)) = false := by
    rw [Bool.eq_false_iff]
    exact fun h => hne ((F64.eq_neg_one v).mp h)
  have range : ∀ cap : F64, ∀ a c : ℚ, v = F64.fin a → cap = F64.fin c → 0 ≤ a → a ≤ c →
      0 < c → ∃ x y : ℚ,
        F64.mul (F64.lit 40) (F64.div v cap) = F64.fin x ∧
        F64.mul (F64.lit 40) (F64.sub (F64.lit 1) (F64.div v cap)) = F64.fin y ∧
        drawbar.ful v cap = ⌈x⌉ ∧ drawbar.emp v cap = ⌊y⌋ ∧
        0 ≤ drawbar.ful v cap ∧ 0 ≤ drawbar.emp v cap := by
    intro cap a c hva hcc h0 hle hc
    subst hva hcc
    obtain ⟨x, y, hx, hy, x0, _, y0, _, hf, he⟩ := drawbar_counts h0 hle hc
    refine ⟨x, y, hx, hy, hf, he, ?_, ?_⟩
    · rw [hf]; exact Int.ceil_nonneg x0
    · rw [he]; exact Int.floor_nonneg.mpr y0
  rcases assertFloat_cases (vals.get (k ++ "max")) with ⟨m, hm, hmax⟩ | ⟨hno, hmax⟩
  · refine ⟨m, ?_, ?_, ?_, range m⟩
    · intro m2 h2
      have : vals.get (k ++ "max") = Value.num m2 := by simp [Snapshot.get, h2]
      rw [hm] at this
      injection this
    · intro hall
      exfalso
      cases hopt : vals (k ++ "max") with
      | none => simp [Snapshot.get, hopt] at hm
      | some x =>
        have : x = Value.num m := by simpa [Snapshot.get, hopt] using hm
        exact hall m (by rw [hopt, this])
    · simp [printresource, hget, hneq, hmax, drawbar]
  · refine ⟨F64.lit 1, ?_, ?_, ?_, range (F64.lit 1)⟩
    · intro m2 h2
      exfalso
      exact hno m2 (by simp [Snapshot.get, h2])
    · intro _; rfl
    · simp [printresource, hget, hneq, hmax, drawbar]

/-- Witness of `printresource_bar`: kerosene at 20 of a capacity of 40. -/
theorem printresource_bar_witness :
    printresource snapKero "Kero" = Outcome.done
      ([Out.printf "%20s %10.2f %3s  %6.2f%%  "
          [Arg.str "Kerosene", Arg.val (Value.num (F64.lit 20)), Arg.str "L",
            Arg.val (Value.num (F64.lit 50))]]
        ++ List.replicate 20 (Out.printf "█" [])
        ++ List.replicate 20 (Out.printf "-" [])
        ++ [Out.println []]) := by
  obtain ⟨cap, h1, _, h3, _⟩ :=
    printresource_bar.1 snapKero "Kero" (F64.lit 20) (by rfl) (by decide)
  have hcap : cap = F64.lit 40 := h1 (F64.lit 40) (by rfl)
  subst hcap
  have hp : F64.mul (F64.lit 100) (F64.div (F64.lit 20) (F64.lit 40)) = F64.lit 50 := by decide!
  rw [h3, printresource_bar.2.1.1, printresource_bar.2.1.2, hp]
  rfl

/-- C6: there are a value and a capacity, `0 ≤ v ≤ max` and `max > 0`, both float64 values,
for which the two cell counts of `drawbar` do not sum to 40: 4 of 5 gives 32 filled and 7
empty cells, 39 in all (`1 - 4/5` is rounded below `1/5`), and `2^-60` of 1 gives 1 filled
and 40 empty cells, 41 in all (`1 - 2^-60` is rounded to 1). -/
theorem drawbar_cells_not_forty :
    (∃ v max : ℚ, 0 ≤ v ∧ v ≤ max ∧ 0 < max ∧
      F64.round false v = F64.fin v ∧ F64.round false max = F64.fin max ∧
      drawbar.ful (F64.fin v) (F64.fin max) = 32 ∧ drawbar.emp (F64.fin v) (F64.fin max) = 7 ∧
      drawbar.ful (F64.fin v) (F64.fin max) + drawbar.emp (F64.fin v) (F64.fin max) = 39 ∧
      drawbar (F64.fin v) (F64.fin max) =
        List.replicate 32 (Out.printf "█" []) ++ List.replicate 7 (Out.printf "-" [])) ∧
    (∃ v max : ℚ, 0 ≤ v ∧ v ≤ max ∧ 0 < max ∧
      F64.round false v = F64.fin v ∧ F64.round false max = F64.fin max ∧
      drawbar.ful (F64.fin v) (F64.fin max) = 1 ∧ drawbar.emp (F64.fin v) (F64.fin max) = 40 ∧
      drawbar.ful (F64.fin v) (F64.fin max) + drawbar.emp (F64.fin v) (F64.fin max) = 41 ∧
      drawbar (F64.fin v) (F64.fin max) =
        List.replicate 1 (Out.printf "█" []) ++ List.replicate 40 (Out.printf "-" [])) := by
  have f1 : drawbar.ful (F64.fin 4) (F64.fin 5) = 32 := by decide!
  have e1 : drawbar.emp (F64.fin 4) (F64.fin 5) = 7 := by decide!
  have f2 : drawbar.ful (F64.fin (1 / 2 ^ 60)) (F64.fin 1) = 1 := by decide!
  have e2 : drawbar.emp (F64.fin (1 / 2 ^ 60)) (F64.fin 1) = 40 := by decide!
  refine ⟨⟨4, 5, by norm_num, by norm_num, by norm_num, by decide!, by decide!, f1, e1, ?_, ?_⟩,
    ⟨1 / 2 ^ 60, 1, by positivity, ?_, by norm_num, by decide!, by decide!, f2, e2, ?_, ?_⟩⟩
  · rw [f1, e1]; rfl
  · rw [drawbar, f1, e1]; rfl
  · rw [div_le_one (by positivity)]
    exact one_le_pow₀ (by norm_num)
  · rw [f2, e2]; rfl
  · rw [drawbar, f2, e2]; rfl

/-- C7: `printresource` prints nothing exactly when the key is absent, holds a value that is
not a number, or holds the number -1; the last holds whatever else the snapshot binds. -/
theorem printresource_silent_iff :
    (∀ (vals : Snapshot) (k : String),
      printresource vals k = Outcome.done [] ↔
        (vals k = none ∨ (∃ x, vals k = some x ∧ ∀ v, x ≠ Value.num v) ∨
          vals k = some (Value.num (F64.fin (-1))))) ∧
    (∀ (vals : Snapshot) (k : String), vals k = some (Value.num (F64.fin (-1))) →
      printresource vals k = Outcome.done []) := by
  have key : ∀ (vals : Snapshot) (k : String),
      printresource vals k = Outcome.done [] ↔
        (vals k = none ∨ (∃ x, vals k = some x ∧ ∀ v, x ≠ Value.num v) ∨
          vals k = some (Value.num (F64.fin (-1)))) := by
    intro vals k
    cases hk : vals k with
    | none => simp [printresource, Snapshot.get, hk, assertFloat]
    | some x =>
      cases x with
      | num v =>
        by_cases hv : v = F64.fin (-1)
        · subst hv
          simp [printresource, Snapshot.get, hk, assertFloat, F64.eq, F64.toRat]
        · have hneq : F64.eq v (F64.fin (-1)) = false := by
            rw [Bool.eq_false_iff]
            exact fun h => hv ((F64.eq_neg_one v).mp h)
          simp [printresource, Snapshot.get, hk, assertFloat, hneq, hv]
      | bool b => simp [printresource, Snapshot.get, hk, assertFloat]
      | str s => simp [printresource, Snapshot.get, hk, assertFloat]
      | nil => simp [printresource, Snapshot.get, hk, assertFloat]
      | arr xs => simp [printresource, Snapshot.get, hk, assertFloat]
      | obj kvs => simp [printresource, Snapshot.get, hk, assertFloat]
  exact ⟨key, fun vals k h => (key vals k).mpr (Or.inr (Or.inr h))⟩

/-- Witness of `printresource_silent_iff`: monopropellant reported as -1 while its capacity
is reported as 40. -/
theorem printresource_silent_iff_witness : printresource snapMonoAbsent "Mono" = Outcome.done [] :=
  printresource_silent_iff.2 snapMonoAbsent "Mono" (by rfl)

/-- The capacity key `k ++ "max"` differs from `k`. -/
theorem key_max_ne (k : String) : k ++ "max" ≠ k := by
  intro h
  have := congrArg String.length h
  simp only [String.length_append] at this
  have h3 : "max".length = 3 := by decide
  omega

/-- Reading the key that was just rebound. -/
theorem get_update_same (vals : Snapshot) (k : String) (x : Option Value) :
    Snapshot.get (Function.update vals k x) k = x.getD Value.nil := by
  simp [Snapshot.get]

/-- Reading a key other than the one that was rebound. -/
theorem get_update_ne (vals : Snapshot) {k j : String} (h : j ≠ k) (x : Option Value) :
    Snapshot.get (Function.update vals k x) j = Snapshot.get vals j := by
  simp [Snapshot.get, Function.update, h]

/-- The assertion `x.(float64)` fails on an absent key and on a value that is not a number. -/
theorem assertFloat_of_not_num {x : Option Value} (h : ∀ m, x ≠ some (Value.num m)) :
    assertFloat (x.getD Value.nil) = (F64.lit 0, false) := by
  cases x with
  | none => rfl
  | some y =>
    cases y with
    | num v => exact absurd rfl (h v)
    | bool b => rfl
    | str s => rfl
    | nil => rfl
    | arr xs => rfl
    | obj kvs => rfl

/-- The output of `printresource` for a number other than -1, in terms of the capacity it reads. -/
theorem printresource_num (vals : Snapshot) (k : String) (v : F64)
    (hv : vals k = some (Value.num v)) (hne : v ≠ F64.fin (-1)) (cap : F64)
    (hcap : cap = if (assertFloat (vals.get (k ++ "max"))).2
      then (assertFloat (vals.get (k ++ "max"))).1 else F64.lit 1) :
    printresource vals k = Outcome.done
      ([Out.printf "%20s %10.2f %3s  %6.2f%%  "
          [Arg.str (tabGet k).label, Arg.val (Value.num v), Arg.str (tabGet k).unit,
            Arg.val (Value.num (F64.mul (F64.lit 100) (F64.div v cap)))]]
        ++ drawbar v cap ++ [Out.println []]) := by
  have hget : assertFloat (vals.get k) = (v, true) := by simp [Snapshot.get, hv, assertFloat]
  have hneq : F64.eq v (F64.fin (-1)) = false := by
    rw [Bool.eq_false_iff]
    exact fun h => hne ((F64.eq_neg_one v).mp h)
  subst hcap
  simp only [printresource, hget, hneq]
  rfl

/-- C8 (counterexample): `Alt` is a registered field without a capacity path, and the
output of `printresource` on it changes when the snapshot also binds `Altmax`: the
percentage printed for the value 20 is 50 with `Altmax` at 40 and 2000 without it. -/
theorem printresource_reads_max_without_path :
    (tabGet "Alt").jsonmax = "" ∧
    printresource (Function.update (single "Alt" (Value.num (F64.lit 20))) "Altmax"
        (some (Value.num (F64.lit 40)))) "Alt"
      ≠ printresource (single "Alt" (Value.num (F64.lit 20))) "Alt" := by
  refine ⟨by rfl, ?_⟩
  have p1 : F64.mul (F64.lit 100) (F64.div (F64.lit 20) (F64.lit 40)) = F64.lit 50 := by
    decide!
  have p2 : F64.mul (F64.lit 100) (F64.div (F64.lit 20) (F64.lit 1)) = F64.lit 2000 := by
    decide!
  rw [printresource_num _ "Alt" (F64.lit 20) (by rfl) (by decide) (F64.lit 40) (by rfl),
    printresource_num _ "Alt" (F64.lit 20) (by rfl) (by decide) (F64.lit 1) (by rfl), p1, p2]
  simp [F64.lit]

/-- C8 (amended): `printresource` does not consult the registry. Its output is the same
for every binding of `k ++ "max"` that is not a number (the key absent, or bound to a
boolean, a string, null, an array or an object): the capacity is then 1.0, so that the
percentage printed is `100 * (v / 1)` and the bar is that of `v` against 1. When
`k ++ "max"` holds a number, that number is the capacity, for every key `k`. -/
theorem printresource_max_not_number :
    (∀ (vals : Snapshot) (k : String) (x y : Option Value),
      (∀ m, x ≠ some (Value.num m)) → (∀ m, y ≠ some (Value.num m)) →
      printresource (Function.update vals (k ++ "max") x) k
        = printresource (Function.update vals (k ++ "max") y) k) ∧
    (∀ (vals : Snapshot) (k : String) (v m : F64), vals k = some (Value.num v) →
      v ≠ F64.fin (-1) → vals (k ++ "max") = some (Value.num m) →
      printresource vals k = Outcome.done
        ([Out.printf "%20s %10.2f %3s  %6.2f%%  "
            [Arg.str (tabGet k).label, Arg.val (Value.num v), Arg.str (tabGet k).unit,
              Arg.val (Value.num (F64.mul (F64.lit 100) (F64.div v m)))]]
          ++ drawbar v m ++ [Out.println []])) ∧
    (∀ (vals : Snapshot) (k : String) (v : F64), vals k = some (Value.num v) →
      v ≠ F64.fin (-1) → (∀ m, vals (k ++ "max") ≠ some (Value.num m)) →
      printresource vals k = Outcome.done
        ([Out.printf "%20s %10.2f %3s  %6.2f%%  "
            [Arg.str (tabGet k).label, Arg.val (Value.num v), Arg.str (tabGet k).unit,
              Arg.val (Value.num (F64.mul (F64.lit 100) (F64.div v (F64.lit 1))))]]
          ++ drawbar v (F64.lit 1) ++ [Out.println []])) ∧
    printresource (Function.update (single "Alt" (Value.num (F64.lit 20))) "Altmax"
        (some (Value.str "n/a"))) "Alt" = Outcome.done
      ([Out.printf "%20s %10.2f %3s  %6.2f%%  "
          [Arg.str "Radar altitude", Arg.val (Value.num (F64.lit 20)), Arg.str "",
            Arg.val (Value.num (F64.lit 2000))]]
        ++ drawbar (F64.lit 20) (F64.lit 1) ++ [Out.println []]) := by
  have hdef : ∀ (vals : Snapshot) (k : String) (v : F64), vals k = some (Value.num v) →
      v ≠ F64.fin (-1) → (∀ m, vals (k ++ "max") ≠ some (Value.num m)) →
      printresource vals k = Outcome.done
        ([Out.printf "%20s %10.2f %3s  %6.2f%%  "
            [Arg.str (tabGet k).label, Arg.val (Value.num v), Arg.str (tabGet k).unit,
              Arg.val (Value.num (F64.mul (F64.lit 100) (F64.div v (F64.lit 1))))]]
          ++ drawbar v (F64.lit 1) ++ [Out.println []]) := by
    intro vals k v hv hne hmax
    have hg : assertFloat (vals.get (k ++ "max")) = (F64.lit 0, false) :=
      assertFloat_of_not_num hmax
    exact printresource_num vals k v hv hne (F64.lit 1) (by rw [hg]; rfl)
  refine ⟨?_, ?_, hdef, ?_⟩
  · intro vals k x y hx hy
    have hk : ∀ z : Option Value,
        Snapshot.get (Function.update vals (k ++ "max") z) k = Snapshot.get vals k :=
      fun z => get_update_ne vals (Ne.symm (key_max_ne k)) z
    simp only [printresource, hk, get_update_same, assertFloat_of_not_num hx,
      assertFloat_of_not_num hy]
  · intro vals k v m hv hne hm
    exact printresource_num vals k v hv hne m (by simp [Snapshot.get, hm, assertFloat])
  · have p : F64.mul (F64.lit 100) (F64.div (F64.lit 20) (F64.lit 1)) = F64.lit 2000 := by
      decide!
    have h := hdef (Function.update (single "Alt" (Value.num (F64.lit 20))) "Altmax"
      (some (Value.str "n/a"))) "Alt" (F64.lit 20) (by rfl) (by decide) (by
        intro m hm
        have h2 : Function.update (single "Alt" (Value.num (F64.lit 20))) "Altmax"
            (some (Value.str "n/a")) ("Alt" ++ "max") = some (Value.str "n/a") := by rfl
        rw [h2] at hm
        cases hm)
    rw [p] at h
    exact h

/-- Witness of `printresource_max_not_number`: for the altitude, a string under `Altmax`
changes nothing with respect to `Altmax` absent. -/
theorem printresource_max_not_number_witness :
    printresource (Function.update (single "Alt" (Value.num (F64.lit 20))) ("Alt" ++ "max")
        (some (Value.str "n/a"))) "Alt"
      = printresource (Function.update (single "Alt" (Value.num (F64.lit 20))) ("Alt" ++ "max")
        none) "Alt" :=
  printresource_max_not_number.1 (single "Alt" (Value.num (F64.lit 20))) "Alt"
    (some (Value.str "n/a")) none (by simp) (by simp)

/-- The assertion `x.(bool)` fails on an absent key and on a value that is not a boolean. -/
theorem assertBool_of_not_bool {x : Option Value} (h : ∀ b, x ≠ some (Value.bool b)) :
    assertBool (x.getD Value.nil) = (false, false) := by
  cases x with
  | none => rfl
  | some y =>
    cases y with
    | num v => rfl
    | bool b => exact absurd rfl (h b)
    | str s => rfl
    | nil => rfl
    | arr xs => rfl
    | obj kvs => rfl

/-- The function `printresource` never panics. -/
theorem printresource_done (vals : Snapshot) (k : String) :
    ∃ out, printresource vals k = Outcome.done out := by
  unfold printresource
  simp only
  split_ifs
  all_goals exact ⟨_, rfl⟩

/-- The function `printorient` never panics. -/
theorem printorient_done (vals : Snapshot) : ∃ out, printorient vals = Outcome.done out := by
  unfold printorient
  simp only
  split_ifs
  · exact ⟨_, rfl⟩
  · exact ⟨_, rfl⟩

/-- C10 (counterexample): `printval` on a snapshot that binds `St` to a string prints a
line, while on the same snapshot with the key removed it prints nothing. -/
theorem printval_prints_mistyped :
    printval (single "St" (Value.str "x")) "St"
      ≠ printval (Function.update (single "St" (Value.str "x")) "St" none) "St" := by
  simp [printval, Snapshot.has, Snapshot.get, single]

/-- C10 (amended): for `printtime`, `printdist`, `printbool` and `printresource`, a value
of the wrong dynamic type under the key gives the output of the snapshot with the key
removed, which is empty, and no panic; for the capacity key of `printresource` and for each
of the four keys of `printorient`, a value that is not a number gives the output of the
snapshot with that key removed, and no panic. `printval` tests presence only: it prints
its line for a present value of any type, handing the value to the format. -/
theorem mistyped_same_as_absent :
    (∀ (vals : Snapshot) (k : String) (x : Value), (∀ v, x ≠ Value.num v) →
      (printtime (Function.update vals k (some x)) k
          = printtime (Function.update vals k none) k ∧
        printtime (Function.update vals k (some x)) k = Outcome.done []) ∧
      (printdist (Function.update vals k (some x)) k
          = printdist (Function.update vals k none) k ∧
        printdist (Function.update vals k (some x)) k = Outcome.done []) ∧
      (printresource (Function.update vals k (some x)) k
          = printresource (Function.update vals k none) k ∧
        printresource (Function.update vals k (some x)) k = Outcome.done []) ∧
      (printresource (Function.update vals (k ++ "max") (some x)) k
          = printresource (Function.update vals (k ++ "max") none) k ∧
        ∃ out, printresource (Function.update vals (k ++ "max") (some x)) k
          = Outcome.done out) ∧
      (∀ j : String, j = "H" ∨ j = "P" ∨ j = "R" ∨ j = "ToPro" →
        printorient (Function.update vals j (some x))
          = printorient (Function.update vals j none) ∧
        ∃ out, printorient (Function.update vals j (some x)) = Outcome.done out)) ∧
    (∀ (vals : Snapshot) (k : String) (x : Value), (∀ b, x ≠ Value.bool b) →
      printbool (Function.update vals k (some x)) k
          = printbool (Function.update vals k none) k ∧
        printbool (Function.update vals k (some x)) k = Outcome.done []) ∧
    (∀ (vals : Snapshot) (k : String) (x : Value),
      printval (Function.update vals k (some x)) k = Outcome.done
        [Out.printf "%20s %10.2f %s\n"
          [Arg.str (tabGet k).label, Arg.val x, Arg.str (tabGet k).unit]]) := by
  refine ⟨?_, ?_, ?_⟩
  · intro vals k x hx
    have hx2 : ∀ m, some x ≠ some (Value.num m) := fun m h => hx m (Option.some.inj h)
    have hn : ∀ m, (none : Option Value) ≠ some (Value.num m) := fun m h => by cases h
    have a1 : assertFloat x = (F64.lit 0, false) := assertFloat_of_not_num hx2
    have a2 : assertFloat Value.nil = (F64.lit 0, false) := rfl
    refine ⟨?_, ?_, ?_, ?_, ?_⟩
    · simp [printtime, get_update_same, a1, a2]
    · simp [printdist, get_update_same, a1, a2]
    · simp [printresource, get_update_same, a1, a2]
    · have hk : ∀ z : Option Value,
          Snapshot.get (Function.update vals (k ++ "max") z) k = Snapshot.get vals k :=
        fun z => get_update_ne vals (Ne.symm (key_max_ne k)) z
      refine ⟨?_, printresource_done _ _⟩
      simp only [printresource, hk, get_update_same, assertFloat_of_not_num hx2,
        assertFloat_of_not_num hn]
    · intro j hj
      refine ⟨?_, printorient_done _⟩
      rcases hj with h | h | h | h <;> subst h <;>
        simp [printorient, Snapshot.get, Function.update, a1, a2]
  · intro vals k x hx
    have hx2 : ∀ b, some x ≠ some (Value.bool b) := fun b h => hx b (Option.some.inj h)
    have hn : ∀ b, (none : Option Value) ≠ some (Value.bool b) := fun b h => by cases h
    have b1 : assertBool x = (false, false) := assertBool_of_not_bool hx2
    have b2 : assertBool Value.nil = (false, false) := rfl
    simp [printbool, get_update_same, b1, b2]
  · intro vals k x
    simp [printval, Snapshot.has, Snapshot.get]

/-- Witness of `mistyped_same_as_absent`: a string under the mission clock key. -/
theorem mistyped_same_as_absent_witness :
    printtime (Function.update (single "T" (Value.num (F64.lit 5))) "T"
      (some (Value.str "x"))) "T" = Outcome.done [] :=
  ((mistyped_same_as_absent.1 (single "T" (Value.num (F64.lit 5))) "T" (Value.str "x")
    (by simp)).1).2

/-- The accumulator of `String.intercalate` can be split off in front. -/
theorem intercalate_go_append (s : String) (l : List String) : ∀ acc pre : String,
    String.intercalate.go (pre ++ acc) s l = pre ++ String.intercalate.go acc s l := by
  induction l with
  | nil => intro acc pre; rfl
  | cons a rest ih =>
    intro acc pre
    simp only [String.intercalate.go]
    rw [String.append_assoc pre acc s, String.append_assoc pre (acc ++ s) a, ih]

/-- Joining at least two strings: the first, the separator, the rest joined. -/
theorem intercalate_cons_cons (s a b : String) (l : List String) :
    s.intercalate (a :: b :: l) = a ++ s ++ s.intercalate (b :: l) := by
  simp only [String.intercalate, String.intercalate.go]
  rw [intercalate_go_append]

/-- The entries of a list of fields, one field at a time. -/
theorem queryEntries_cons (e : String × resource) (rest : List (String × resource)) :
    queryEntries (e :: rest) = entriesOf e ++ queryEntries rest := by
  simp [queryEntries]

/-- The loop of `refresh`, started with the text `url` and the counter `i` on the last `n - i` fields, appends their entries joined by `&`. -/
theorem urlStep_fold (n : ℤ) (l : List (String × resource)) : ∀ (url : String) (i : ℤ),
    i + (l.length : ℤ) = n →
    (l.foldl (urlStep n) (url, i)).1 = url ++ "&".intercalate (queryEntries l) := by
  induction l with
  | nil => intro url i _; simp [queryEntries, String.intercalate]
  | cons e rest ih =>
    intro url i hlen
    rw [List.foldl_cons]
    cases rest with
    | nil =>
      have hi : ¬ i < n - 1 := by simp at hlen; omega
      by_cases hm : e.2.jsonmax = ""
      · simp [urlStep, hm, hi, queryEntries, entriesOf, String.intercalate,
          String.intercalate.go]
      · simp [urlStep, hm, hi, queryEntries, entriesOf, String.intercalate,
          String.intercalate.go, String.append_assoc]
    | cons e2 rest2 =>
      have hi : i < n - 1 := by simp at hlen; omega
      have hrest := ih (urlStep n (url, i) e).1 (i + 1) (by simp at hlen ⊢; omega)
      have hsnd : (urlStep n (url, i) e) = ((urlStep n (url, i) e).1, i + 1) := rfl
      rw [hsnd, hrest]
      have hq : queryEntries (e2 :: rest2)
          = (e2.1 ++ "=" ++ e2.2.jsonres) ::
            ((if e2.2.jsonmax ≠ "" then [e2.1 ++ "max=" ++ e2.2.jsonmax] else [])
              ++ queryEntries rest2) := by
        rw [queryEntries_cons]; rfl
      rw [queryEntries_cons e, hq]
      by_cases hm : e.2.jsonmax = ""
      · simp [urlStep, hm, hi, entriesOf, intercalate_cons_cons, String.append_assoc]
      · simp [urlStep, hm, hi, entriesOf, intercalate_cons_cons, String.append_assoc]

/-- The entries of the registry: 47 of them, pairwise distinct, none empty, none with `&`. -/
theorem queryEntries_tab_ok :
    (queryEntries tab).length = 47 ∧ (queryEntries tab).Nodup ∧
    ∀ e ∈ queryEntries tab, e ≠ "" ∧ '&' ∉ e.toList := by
  refine ⟨by rfl, by decide, by decide⟩

/-- C9: whatever the order in which the loop of `refresh` visits the registry, the text it
appends after the `?` is the list of query entries joined by single `&`, with no `&` before,
after or doubled (no entry is empty or contains `&`); the entries are one `key=remotePath`
for each of the 36 fields and one `keymax=remoteMaxPath` for each of the 11 fields with a
capacity path, 47 in all and each once, and they are the same entries for every order. -/
theorem query_well_formed (order : List (String × resource)) (hperm : order.Perm tab) :
    buildURL order = urlBase ++ "&".intercalate (queryEntries order) ∧
    (queryEntries order).Perm (queryEntries tab) ∧
    (queryEntries order).length = 47 ∧
    (queryEntries order).Nodup ∧
    (∀ e ∈ queryEntries order, e ≠ "" ∧ '&' ∉ e.toList) ∧
    tab.length = 36 ∧ (tab.filter (fun e => e.2.jsonmax ≠ "")).length = 11 := by
  have hp : (queryEntries order).Perm (queryEntries tab) := List.Perm.flatMap_right _ hperm
  obtain ⟨hlen, hnd, hok⟩ := queryEntries_tab_ok
  refine ⟨?_, hp, ?_, ?_, ?_, by rfl, by rfl⟩
  · exact urlStep_fold _ order urlBase 0 (by rw [hperm.length_eq]; simp)
  · rw [hp.length_eq, hlen]
  · exact hp.nodup_iff.mpr hnd
  · intro e he
    exact hok e (hp.subset he)

/-- Witness of `query_well_formed`: the registry visited from its last entry to its first. -/
theorem query_well_formed_witness :
    buildURL tab.reverse = urlBase ++ "&".intercalate (queryEntries tab.reverse) :=
  (query_well_formed tab.reverse (List.reverse_perm tab)).1

namespace F64

/-- Rounding a rational between 0 and `2^1023` gives a finite value in the same interval:
rounding does not cross a power of two, and below `2^1023` it does not overflow. -/
theorem round_le_two_pow {a : ℚ} (h0 : 0 ≤ a) (hle : a ≤ (2 : ℚ) ^ (1023 : ℤ)) :
    ∃ r : ℚ, round false a = fin r ∧ 0 ≤ r ∧ r ≤ (2 : ℚ) ^ (1023 : ℤ) := by
  unfold round
  by_cases ha0 : a = 0
  · refine ⟨0, ?_, le_rfl, by positivity⟩
    simp [ha0, mk]
  · have hpos : 0 < a := lt_of_le_of_ne h0 (Ne.symm ha0)
    simp only [ha0, if_false]
    have hstep : (2 : ℚ) ^ (1023 : ℤ) < (2 : ℚ) ^ (1024 : ℤ) :=
      zpow_lt_zpow_right₀ (by norm_num) (by norm_num)
    have he : expo a < 1024 := expo_lt_of_lt hpos (lt_of_le_of_lt hle hstep)
    set e : ℤ := max (expo a) (-1022) with he_def
    have he2 : e ≤ 1023 := by
      rw [he_def]; exact max_le (by omega) (by norm_num)
    have hu : 0 < pow2 (e - 52) := pow2_pos _
    set u : ℚ := pow2 (e - 52) with hu_def
    have hM : ((((2 : ℤ) ^ (1075 - e).toNat : ℤ)) : ℚ) * u = (2 : ℚ) ^ (1023 : ℤ) := by
      rw [hu_def, pow2_eq_zpow]
      have h1 : ((((2 : ℤ) ^ (1075 - e).toNat : ℤ)) : ℚ)
          = (2 : ℚ) ^ (((1075 - e).toNat : ℕ) : ℤ) := by
        push_cast; rw [zpow_natCast]
      rw [h1, Int.toNat_of_nonneg (by omega), ← zpow_add₀ (two_ne_zero)]
      have : 1075 - e + (e - 52) = 1023 := by ring
      rw [this]
    have ht : a / u ≤ ((((2 : ℤ) ^ (1075 - e).toNat : ℤ)) : ℚ) := by
      rw [div_le_iff₀ hu, hM]; exact hle
    have hne := nearestEven_le ht
    have hne0 := nearestEven_nonneg (div_nonneg h0 hu.le)
    have hr0 : (0 : ℚ) ≤ (nearestEven (a / u) : ℚ) * u := by
      have : (0 : ℚ) ≤ (nearestEven (a / u) : ℚ) := by exact_mod_cast hne0
      positivity
    have hrN : (nearestEven (a / u) : ℚ) * u ≤ (2 : ℚ) ^ (1023 : ℤ) := by
      rw [← hM]
      have : (nearestEven (a / u) : ℚ) ≤ ((((2 : ℤ) ^ (1075 - e).toNat : ℤ)) : ℚ) := by
        exact_mod_cast hne
      exact mul_le_mul_of_nonneg_right this hu.le
    have hbig : ¬ pow2 1024 ≤ (nearestEven (a / u) : ℚ) * u := by
      rw [pow2_eq_zpow, not_le]
      linarith
    refine ⟨(nearestEven (a / u) : ℚ) * u, ?_, hr0, hrN⟩
    rw [if_neg hbig, mk_false]

/-- Division of a finite value between 0 and `2^1024` by a natural number from 2 on gives a
finite value between 0 and `2^1023`. -/
theorem div_lit_bounded (c : ℕ) (hc : 2 ≤ c) {a : ℚ} (h0 : 0 ≤ a)
    (hle : a ≤ (2 : ℚ) ^ (1024 : ℤ)) :
    ∃ r : ℚ, div (fin a) (lit c) = fin r ∧ 0 ≤ r ∧ r ≤ (2 : ℚ) ^ (1023 : ℤ) := by
  have hcq : (2 : ℚ) ≤ (c : ℚ) := by exact_mod_cast hc
  have hcpos : (0 : ℚ) < (c : ℚ) := by linarith
  have hlt : ¬ a < 0 := not_lt.mpr h0
  unfold lit
  rw [div_fin_pos a hcpos]
  simp only [hlt, decide_False, abs_of_nonneg h0]
  apply round_le_two_pow (div_nonneg h0 hcpos.le)
  rw [div_le_iff₀ hcpos]
  have h2 : (2 : ℚ) ^ (1024 : ℤ) = (2 : ℚ) ^ (1023 : ℤ) * 2 := by
    rw [← zpow_add_one₀ (two_ne_zero)]; norm_num
  have hp : (0 : ℚ) ≤ (2 : ℚ) ^ (1023 : ℤ) := by positivity
  calc a ≤ (2 : ℚ) ^ (1023 : ℤ) * 2 := by rw [← h2]; exact hle
    _ ≤ (2 : ℚ) ^ (1023 : ℤ) * (c : ℚ) := mul_le_mul_of_nonneg_left hcq hp

/-- The remainder `Mod(x, y)` of a non-negative finite value by a positive natural number
is the finite value `x - ⌊x / y⌋ * y`, at least 0 and below `y`. -/
theorem mod_lit_bounded (c : ℕ) (hc : 0 < c) {a : ℚ} (h0 : 0 ≤ a) :
    ∃ r : ℚ, mod (fin a) (lit c) = fin r ∧ 0 ≤ r ∧ r < (c : ℚ) := by
  have hcpos : (0 : ℚ) < (c : ℚ) := by exact_mod_cast hc
  have hlt : ¬ a < 0 := not_lt.mpr h0
  have hk : (a / (c : ℚ)).num / (((a / (c : ℚ)).den : ℕ) : ℤ) = ⌊a / (c : ℚ)⌋ :=
    Rat.floor_def.symm
  have hmod : mod (fin a) (lit c) = fin (a - ((⌊a / (c : ℚ)⌋ : ℤ) : ℚ) * (c : ℚ)) := by
    simp only [mod, lit, isZero, toRat, signbit, hcpos.ne', hlt, decide_False,
      abs_of_nonneg h0, abs_of_pos hcpos, hk, mk_false]
    simp
  refine ⟨_, hmod, ?_, ?_⟩
  · have := Int.floor_le (a / (c : ℚ))
    have h2 : ((⌊a / (c : ℚ)⌋ : ℤ) : ℚ) * (c : ℚ) ≤ a := (le_div_iff₀ hcpos).mp this
    linarith
  · have := Int.lt_floor_add_one (a / (c : ℚ))
    have h2 : a < (((⌊a / (c : ℚ)⌋ : ℤ) : ℚ) + 1) * (c : ℚ) := (div_lt_iff₀ hcpos).mp this
    linarith

/-- The conversion `int(x)` of a finite value at least 0 and below a natural number `N`
up to `2^63` is an integer at least 0 and below `N`. -/
theorem toInt_bounded (N : ℕ) (hN : (N : ℤ) ≤ (2 : ℤ) ^ 63) {r : ℚ} (h0 : 0 ≤ r)
    (hlt : r < (N : ℚ)) : 0 ≤ toInt (fin r) ∧ toInt (fin r) < (N : ℤ) := by
  have hk : r.num / ((r.den : ℕ) : ℤ) = ⌊r⌋ := Rat.floor_def.symm
  have f0 : 0 ≤ ⌊r⌋ := Int.floor_nonneg.mpr h0
  have f1 : ⌊r⌋ < (N : ℤ) := by
    have : ((⌊r⌋ : ℤ) : ℚ) < ((N : ℤ) : ℚ) := by
      push_cast
      exact lt_of_le_of_lt (Int.floor_le r) hlt
    exact_mod_cast this
  have ht : toInt (fin r) = ⌊r⌋ := by
    simp only [toInt, h0, if_true, hk]
    rw [if_pos ⟨by omega, by omega⟩]
  rw [ht]
  exact ⟨f0, f1⟩

end F64

/-- The call that `printtime` makes for a number: the prefix chosen by the sign test, and
the four fields of the value that the sign step leaves. -/
theorem printtime_num (vals : Snapshot) (k : String) (v : F64)
    (hv : vals k = some (Value.num v)) :
    printtime vals k = Outcome.done [Out.printf "%20s  %s %dd %dh %02dm %02ds\n"
      [Arg.str (tabGet k).label,
        Arg.str (if F64.lt v (F64.lit 0) then "T-" else "T+"),
        Arg.int (printtime.fields (if F64.lt v (F64.lit 0) then F64.neg v else v)).1,
        Arg.int (printtime.fields (if F64.lt v (F64.lit 0) then F64.neg v else v)).2.1,
        Arg.int (printtime.fields (if F64.lt v (F64.lit 0) then F64.neg v else v)).2.2.1,
        Arg.int (printtime.fields (if F64.lt v (F64.lit 0) then F64.neg v else v)).2.2.2]] := by
  have hget : assertFloat (vals.get k) = (v, true) := by simp [Snapshot.get, hv, assertFloat]
  by_cases h : F64.lt v (F64.lit 0) = true
  · simp [printtime, hget, h, printtime.fields]
  · simp [printtime, hget, h, printtime.fields]

/-- The sign step of `printtime` on a finite value: the prefix is `T-` for a negative value
and `T+` otherwise, and the four fields are those of the magnitude. -/
theorem printtime_sign_step (v : F64) (hfin : v.finite = true) :
    (if F64.lt v (F64.lit 0) then "T-" else "T+") = (if v.toRat < 0 then "T-" else "T+") ∧
    printtime.fields (if F64.lt v (F64.lit 0) then F64.neg v else v)
      = printtime.fields (F64.fin |v.toRat|) := by
  cases v with
  | fin q =>
    have hlt : F64.lt (F64.fin q) (F64.lit 0) = decide (q < 0) := by
      simp [F64.lt, F64.lit, F64.toRat]
    by_cases hq : q < 0
    · have hq0 : q ≠ 0 := ne_of_lt hq
      simp [hlt, hq, F64.toRat, F64.neg, hq0, abs_of_neg hq]
    · simp [hlt, hq, F64.toRat, abs_of_nonneg (not_lt.mp hq)]
  | nzero =>
    have hlt : F64.lt F64.nzero (F64.lit 0) = false := by decide!
    have hf : printtime.fields F64.nzero = printtime.fields (F64.fin 0) := by decide!
    simp [hlt, F64.toRat, hf]
  | inf n => simp [F64.finite] at hfin
  | nan => simp [F64.finite] at hfin

/-- The four fields of a magnitude up to `2^1024`: days from 0 to 23, hours, minutes and
seconds from 0 to 59. -/
theorem printtime_fields_bounds {a : ℚ} (h0 : 0 ≤ a) (hle : a ≤ (2 : ℚ) ^ (1024 : ℤ)) :
    (0 ≤ (printtime.fields (F64.fin a)).1 ∧ (printtime.fields (F64.fin a)).1 ≤ 23) ∧
    (0 ≤ (printtime.fields (F64.fin a)).2.1 ∧ (printtime.fields (F64.fin a)).2.1 ≤ 59) ∧
    (0 ≤ (printtime.fields (F64.fin a)).2.2.1 ∧ (printtime.fields (F64.fin a)).2.2.1 ≤ 59) ∧
    (0 ≤ (printtime.fields (F64.fin a)).2.2.2 ∧ (printtime.fields (F64.fin a)).2.2.2 ≤ 59) := by
  have hstep : (2 : ℚ) ^ (1023 : ℤ) ≤ (2 : ℚ) ^ (1024 : ℤ) :=
    zpow_le_zpow_right₀ (by norm_num) (by norm_num)
  obtain ⟨r1, e1, p1, q1⟩ := F64.div_lit_bounded 60 (by norm_num) h0 hle
  obtain ⟨r2, e2, p2, q2⟩ := F64.div_lit_bounded 60 (by norm_num) p1 (q1.trans hstep)
  obtain ⟨r3, e3, p3, _⟩ := F64.div_lit_bounded 24 (by norm_num) p2 (q2.trans hstep)
  obtain ⟨s, es, s0, s1⟩ := F64.mod_lit_bounded 60 (by norm_num) h0
  obtain ⟨m, em, m0, m1⟩ := F64.mod_lit_bounded 60 (by norm_num) p1
  obtain ⟨h, eh, hh0, hh1⟩ := F64.mod_lit_bounded 60 (by norm_num) p2
  obtain ⟨d, ed, d0, d1⟩ := F64.mod_lit_bounded 24 (by norm_num) p3
  have bs := F64.toInt_bounded 60 (by norm_num) s0 s1
  have bm := F64.toInt_bounded 60 (by norm_num) m0 m1
  have bh := F64.toInt_bounded 60 (by norm_num) hh0 hh1
  have bd := F64.toInt_bounded 24 (by norm_num) d0 d1
  simp only [printtime.fields, e1, e2, e3, es, em, eh, ed]
  push_cast at bs bm bh bd
  refine ⟨⟨bd.1, by omega⟩, ⟨bh.1, by omega⟩, ⟨bm.1, by omega⟩, ⟨bs.1, by omega⟩⟩

/-- Unary minus keeps a finite value finite and keeps its magnitude. -/
theorem F64.neg_finite (v : F64) (hfin : v.finite = true) :
    (F64.neg v).finite = true ∧ |(F64.neg v).toRat| = |v.toRat| := by
  cases v with
  | fin q =>
    by_cases hq : q = 0
    · simp [F64.neg, hq, F64.finite, F64.toRat]
    · simp [F64.neg, hq, F64.finite, F64.toRat]
  | nzero => simp [F64.neg, F64.finite, F64.toRat]
  | inf n => simp [F64.finite] at hfin
  | nan => simp [F64.finite] at hfin

/-- The call that `printtime` makes for a finite number, in terms of its sign and of its
magnitude. -/
theorem printtime_finite (vals : Snapshot) (k : String) (v : F64)
    (hv : vals k = some (Value.num v)) (hfin : v.finite = true) :
    printtime vals k = Outcome.done [Out.printf "%20s  %s %dd %dh %02dm %02ds\n"
      [Arg.str (tabGet k).label,
        Arg.str (if v.toRat < 0 then "T-" else "T+"),
        Arg.int (printtime.fields (F64.fin |v.toRat|)).1,
        Arg.int (printtime.fields (F64.fin |v.toRat|)).2.1,
        Arg.int (printtime.fields (F64.fin |v.toRat|)).2.2.1,
        Arg.int (printtime.fields (F64.fin |v.toRat|)).2.2.2]] := by
  rw [printtime_num vals k v hv, (printtime_sign_step v hfin).1, (printtime_sign_step v hfin).2]

/-- C11: for a finite number `v` under the key, `printtime` prints the prefix `T-` when
`v < 0` and `T+` otherwise, and the day, hour, minute and second fields of the magnitude
of `v`, so that `v` and `-v` print the same four fields; it prints nothing when the key is
absent or holds a value that is not a number. For -125 it prints `T-` and the fields
0, 0, 2, 5. -/
theorem printtime_sign_and_fields :
    (∀ (vals : Snapshot) (k : String) (v : F64), vals k = some (Value.num v) →
      v.finite = true →
      printtime vals k = Outcome.done [Out.printf "%20s  %s %dd %dh %02dm %02ds\n"
        [Arg.str (tabGet k).label,
          Arg.str (if v.toRat < 0 then "T-" else "T+"),
          Arg.int (printtime.fields (F64.fin |v.toRat|)).1,
          Arg.int (printtime.fields (F64.fin |v.toRat|)).2.1,
          Arg.int (printtime.fields (F64.fin |v.toRat|)).2.2.1,
          Arg.int (printtime.fields (F64.fin |v.toRat|)).2.2.2]]) ∧
    (∀ (vals vals2 : Snapshot) (k : String) (v : F64), vals k = some (Value.num v) →
      vals2 k = some (Value.num (F64.neg v)) → v.finite = true →
      ∃ (pre pre2 : String) (d h m s : ℤ),
        printtime vals k = Outcome.done [Out.printf "%20s  %s %dd %dh %02dm %02ds\n"
          [Arg.str (tabGet k).label, Arg.str pre, Arg.int d, Arg.int h, Arg.int m,
            Arg.int s]] ∧
        printtime vals2 k = Outcome.done [Out.printf "%20s  %s %dd %dh %02dm %02ds\n"
          [Arg.str (tabGet k).label, Arg.str pre2, Arg.int d, Arg.int h, Arg.int m,
            Arg.int s]]) ∧
    (∀ (vals : Snapshot) (k : String), (∀ v, vals k ≠ some (Value.num v)) →
      printtime vals k = Outcome.done []) ∧
    (∀ k : String, printtime (single k (Value.num (F64.fin (-125)))) k =
      Outcome.done [Out.printf "%20s  %s %dd %dh %02dm %02ds\n"
        [Arg.str (tabGet k).label, Arg.str "T-", Arg.int 0, Arg.int 0, Arg.int 2,
          Arg.int 5]]) := by
  refine ⟨printtime_finite, ?_, ?_, ?_⟩
  · intro vals vals2 k v hv hv2 hfin
    obtain ⟨hfin2, habs⟩ := F64.neg_finite v hfin
    refine ⟨_, (if (F64.neg v).toRat < 0 then "T-" else "T+"), _, _, _, _,
      printtime_finite vals k v hv hfin, ?_⟩
    rw [printtime_finite vals2 k (F64.neg v) hv2 hfin2, habs]
  · intro vals k hv
    have h : assertFloat (vals.get k) = (F64.lit 0, false) := assertFloat_of_not_num hv
    simp [printtime, h]
  · intro k
    have hf : printtime.fields (F64.fin |(-125 : ℚ)|) = (0, 0, 2, 5) := by decide!
    have hk : single k (Value.num (F64.fin (-125))) k = some (Value.num (F64.fin (-125))) := by
      simp [single]
    rw [printtime_finite _ k (F64.fin (-125)) hk (by rfl)]
    simp only [F64.toRat, hf]
    norm_num

/-- Witness of `printtime_sign_and_fields`: the mission clock 125 seconds before launch. -/
theorem printtime_sign_and_fields_witness :
    printtime (single "T" (Value.num (F64.fin (-125)))) "T" =
      Outcome.done [Out.printf "%20s  %s %dd %dh %02dm %02ds\n"
        [Arg.str (tabGet "T").label,
          Arg.str (if (F64.fin (-125)).toRat < 0 then "T-" else "T+"),
          Arg.int (printtime.fields (F64.fin |(F64.fin (-125)).toRat|)).1,
          Arg.int (printtime.fields (F64.fin |(F64.fin (-125)).toRat|)).2.1,
          Arg.int (printtime.fields (F64.fin |(F64.fin (-125)).toRat|)).2.2.1,
          Arg.int (printtime.fields (F64.fin |(F64.fin (-125)).toRat|)).2.2.2]] :=
  printtime_sign_and_fields.1 (single "T" (Value.num (F64.fin (-125)))) "T" (F64.fin (-125))
    (by rfl) (by rfl)

/-- The rendering part of `refresh` is its statements run in order. -/
theorem render_eq_calls (vals : Snapshot) :
    render vals = (calls.map (Call.run vals)).foldl Outcome.seq (Outcome.done []) := by
  rfl

/-- The text of `fmt.Printf("[%s]", l)`. -/
theorem sprintfS_bracket (l : String) :
    Out.text (Out.printf "[%s]" [Arg.str l]) = some ("[" ++ l ++ "]") := by
  have h : "[%s]".toList = ['[', '%', 's', ']'] := by decide
  simp only [Out.text, h, sprintfS, Option.map]
  rfl

/-- The text of `fmt.Printf(" %s ", l)`. -/
theorem sprintfS_padded (l : String) :
    Out.text (Out.printf " %s " [Arg.str l]) = some (" " ++ l ++ " ") := by
  have h : " %s ".toList = [' ', '%', 's', ' '] := by decide
  simp only [Out.text, h, sprintfS, Option.map]
  rfl

/-- C12: `printbool` prints the label between brackets when the value under the key is
`true`, the label between two spaces when it is `false`, and nothing when the key is
absent or holds a value that is not a boolean; the two texts have the same length, the
length of the label plus 2. -/
theorem printbool_toggle :
    (∀ (vals : Snapshot) (k : String), vals k = some (Value.bool true) →
      printbool vals k = Outcome.done [Out.printf "[%s]" [Arg.str (tabGet k).label]] ∧
      Out.text (Out.printf "[%s]" [Arg.str (tabGet k).label])
        = some ("[" ++ (tabGet k).label ++ "]")) ∧
    (∀ (vals : Snapshot) (k : String), vals k = some (Value.bool false) →
      printbool vals k = Outcome.done [Out.printf " %s " [Arg.str (tabGet k).label]] ∧
      Out.text (Out.printf " %s " [Arg.str (tabGet k).label])
        = some (" " ++ (tabGet k).label ++ " ")) ∧
    (∀ (vals : Snapshot) (k : String), (∀ b, vals k ≠ some (Value.bool b)) →
      printbool vals k = Outcome.done []) ∧
    (∀ l : String, ("[" ++ l ++ "]").length = l.length + 2 ∧
      (" " ++ l ++ " ").length = l.length + 2) := by
  refine ⟨?_, ?_, ?_, ?_⟩
  · intro vals k hv
    exact ⟨by simp [printbool, Snapshot.get, hv, assertBool], sprintfS_bracket _⟩
  · intro vals k hv
    exact ⟨by simp [printbool, Snapshot.get, hv, assertBool], sprintfS_padded _⟩
  · intro vals k hv
    have h : assertBool (vals.get k) = (false, false) := assertBool_of_not_bool hv
    simp [printbool, h]
  · intro l
    have h1 : "[".length = 1 := by decide
    have h2 : "]".length = 1 := by decide
    have h3 : " ".length = 1 := by decide
    simp only [String.length_append, h1, h2, h3]
    omega

/-- Witness of `printbool_toggle`: the SAS flag set. -/
theorem printbool_toggle_witness :
    printbool (single "SAS" (Value.bool true)) "SAS"
        = Outcome.done [Out.printf "[%s]" [Arg.str (tabGet "SAS").label]] ∧
      Out.text (Out.printf "[%s]" [Arg.str (tabGet "SAS").label])
        = some ("[" ++ (tabGet "SAS").label ++ "]") :=
  printbool_toggle.1 (single "SAS" (Value.bool true)) "SAS" (by rfl)

/-- C13: every key that `refresh` passes to a renderer, and every key with which a renderer
indexes the registry, is a key of `tab`: the lookup finds an entry and `tab[k]` is that
entry, not the empty one. The keys are the twenty display keys and the eleven resource
keys of the rendering part. -/
theorem renderer_keys_registered :
    (∀ vals : Snapshot,
      render vals = (calls.map (Call.run vals)).foldl Outcome.seq (Outcome.done [])) ∧
    calls.filterMap Call.key =
      ["T", "St", "SAS", "RCS", "LGT", "BRK", "GEAR", "Throt", "Vel", "OVel", "G", "Alt",
        "Atm", "Q", "Ap", "Pe", "TTAp", "TTPe", "Incl", "Ecc",
        "Elec", "Kero", "LOX", "Hydra", "Aero", "NTO", "MMH", "UDMH", "Xen", "Mono", "Solid"] ∧
    (∀ k ∈ calls.filterMap Call.key, ∃ r, tab.lookup k = some r ∧ tabGet k = r) ∧
    (∀ c ∈ calls, ∀ k ∈ c.lookups, ∃ r, tab.lookup k = some r ∧ tabGet k = r) := by
  have hreg : ∀ k : String, (tab.lookup k).isSome = true →
      ∃ r, tab.lookup k = some r ∧ tabGet k = r := by
    intro k hk
    obtain ⟨r, hr⟩ := Option.isSome_iff_exists.mp hk
    exact ⟨r, hr, by simp [tabGet, hr]⟩
  have h1 : ∀ k ∈ calls.filterMap Call.key, (tab.lookup k).isSome = true := by decide
  have h2 : ∀ c ∈ calls, ∀ k ∈ c.lookups, (tab.lookup k).isSome = true := by decide
  exact ⟨render_eq_calls, by rfl, fun k hk => hreg k (h1 k hk),
    fun c hc k hk => hreg k (h2 c hc k hk)⟩

/-- Witness of `renderer_keys_registered`: the mission clock key `T`. -/
theorem renderer_keys_registered_witness :
    ∃ r, tab.lookup "T" = some r ∧ tabGet "T" = r :=
  renderer_keys_registered.2.2.1 "T" (by decide)

/-- The actions of a cycle whose fetch gave a snapshot: the screen is cleared, then come
the calls of the rendering part. -/
theorem refresh_decoded (vals : Snapshot) :
    (refresh (Fetch.decoded vals)).1 = Act.clear :: (render vals).out.map Act.out := by
  show (match render vals with
    | Outcome.done o => (Act.clear :: o.map Act.out, false)
    | Outcome.panic o => (Act.clear :: o.map Act.out, true)).1 = _
  generalize render vals = o
  cases o <;> rfl

/-- C14: on a failure of the request the cycle clears the screen and prints the line
`no signal`, and does nothing else; on a body that cannot be read or cannot be decoded it
clears the screen and prints the text of the error, and does nothing else. No renderer is
called on either path, and neither path panics. -/
theorem refresh_failure_paths :
    refresh Fetch.getFailed
      = ([Act.clear, Act.out (Out.println [Arg.str "no signal"])], false) ∧
    (∀ err : String, refresh (Fetch.decodeFailed err)
      = ([Act.clear, Act.out (Out.println [Arg.str err])], false)) ∧
    (∀ err : String, refresh (Fetch.readFailed err)
      = ([Act.clear, Act.out (Out.println [Arg.str err])], false)) ∧
    (∀ vals : Snapshot, (refresh (Fetch.decoded vals)).1
      = Act.clear :: (render vals).out.map Act.out) := by
  exact ⟨by rfl, fun _ => by rfl, fun _ => by rfl, refresh_decoded⟩

/-- The number 90000 is within the range of float64. -/
theorem ninety_thousand_in_range : |(F64.lit 90000).toRat| < (2 : ℚ) ^ (1024 : ℤ) := by
  have h1 : |(F64.lit 90000).toRat| = 90000 := by norm_num [F64.lit, F64.toRat]
  have h2 : (90000 : ℚ) < (2 : ℚ) ^ (17 : ℤ) := by norm_num
  have h3 : (2 : ℚ) ^ (17 : ℤ) ≤ (2 : ℚ) ^ (1024 : ℤ) :=
    zpow_le_zpow_right₀ (by norm_num) (by norm_num)
  rw [h1]
  exact lt_of_lt_of_le h2 h3

/-- C15: for every finite number within the range of float64 under the key, the four
integers that `printtime` prints are bounded: the days lie in 0..23 and the hours, the
minutes and the seconds in 0..59. The hours are reduced modulo 60, so hour values from 24
on occur: 90000 seconds are printed with the hour field 25, as `T+`, 1, 25, 0, 0. -/
theorem printtime_fields_ranges :
    (∀ (vals : Snapshot) (k : String) (v : F64), vals k = some (Value.num v) →
      v.finite = true → |v.toRat| < (2 : ℚ) ^ (1024 : ℤ) →
      ∃ (pre : String) (d h m s : ℤ),
        printtime vals k = Outcome.done [Out.printf "%20s  %s %dd %dh %02dm %02ds\n"
          [Arg.str (tabGet k).label, Arg.str pre, Arg.int d, Arg.int h, Arg.int m,
            Arg.int s]] ∧
        (0 ≤ d ∧ d ≤ 23) ∧ (0 ≤ h ∧ h ≤ 59) ∧ (0 ≤ m ∧ m ≤ 59) ∧ (0 ≤ s ∧ s ≤ 59)) ∧
    (∀ k : String, printtime (single k (Value.num (F64.lit 90000))) k =
      Outcome.done [Out.printf "%20s  %s %dd %dh %02dm %02ds\n"
        [Arg.str (tabGet k).label, Arg.str "T+", Arg.int 1, Arg.int 25, Arg.int 0,
          Arg.int 0]]) := by
  constructor
  · intro vals k v hv hfin hrange
    exact ⟨_, _, _, _, _, printtime_finite vals k v hv hfin,
      printtime_fields_bounds (abs_nonneg _) hrange.le⟩
  · intro k
    have hf : printtime.fields (F64.fin |(90000 : ℚ)|) = (1, 25, 0, 0) := by decide!
    have hk : single k (Value.num (F64.lit 90000)) k = some (Value.num (F64.lit 90000)) := by
      simp [single]
    rw [printtime_finite _ k (F64.lit 90000) hk (by rfl)]
    simp only [F64.toRat, F64.lit, Nat.cast_ofNat, hf]
    norm_num

/-- Witness of `printtime_fields_ranges`: the mission clock at 90000 seconds. -/
theorem printtime_fields_ranges_witness :
    ∃ (pre : String) (d h m s : ℤ),
      printtime (single "T" (Value.num (F64.lit 90000))) "T"
        = Outcome.done [Out.printf "%20s  %s %dd %dh %02dm %02ds\n"
          [Arg.str (tabGet "T").label, Arg.str pre, Arg.int d, Arg.int h, Arg.int m,
            Arg.int s]] ∧
      (0 ≤ d ∧ d ≤ 23) ∧ (0 ≤ h ∧ h ≤ 59) ∧ (0 ≤ m ∧ m ≤ 59) ∧ (0 ≤ s ∧ s ≤ 59) :=
  printtime_fields_ranges.1 (single "T" (Value.num (F64.lit 90000))) "T" (F64.lit 90000)
    (by rfl) (by rfl) ninety_thousand_in_range

/-- The output of `printresource` on a key depends on what the snapshot binds to the
capacity key: for the value 20 the percentage printed is 50 with the capacity 40 and 2000
without a capacity. -/
theorem printresource_reads_max (k : String) :
    printresource (Function.update (single k (Value.num (F64.lit 20))) (k ++ "max")
        (some (Value.num (F64.lit 40)))) k
      ≠ printresource (single k (Value.num (F64.lit 20))) k := by
  have p1 : F64.mul (F64.lit 100) (F64.div (F64.lit 20) (F64.lit 40)) = F64.lit 50 := by
    decide!
  have p2 : F64.mul (F64.lit 100) (F64.div (F64.lit 20) (F64.lit 1)) = F64.lit 2000 := by
    decide!
  have hk : single k (Value.num (F64.lit 20)) k = some (Value.num (F64.lit 20)) := by
    simp [single]
  have hmax : single k (Value.num (F64.lit 20)) (k ++ "max") = none := by
    simp [single, key_max_ne]
  have hk2 : Function.update (single k (Value.num (F64.lit 20))) (k ++ "max")
      (some (Value.num (F64.lit 40))) k = some (Value.num (F64.lit 20)) := by
    rw [Function.update_noteq (Ne.symm (key_max_ne k)), hk]
  rw [printresource_num _ k (F64.lit 20) hk2 (by decide) (F64.lit 40)
      (by simp [Snapshot.get, assertFloat]),
    printresource_num _ k (F64.lit 20) hk (by decide) (F64.lit 1)
      (by simp [Snapshot.get, hmax, assertFloat]), p1, p2]
  simp [F64.lit]

/-- The rendering part of `refresh` run on snapshots that bind one resource key: with the
value 20 and the capacity 40 it makes 47 calls, with the value 20 alone 807, and on the
empty snapshot 5. -/
theorem render_resource_lengths : ∀ k ∈ resourceKeys,
    (render (Function.update (single k (Value.num (F64.lit 20))) (k ++ "max")
        (some (Value.num (F64.lit 40))))).out.length = 47 ∧
    (render (single k (Value.num (F64.lit 20)))).out.length = 807 ∧
    (render (fun _ => none)).out.length = 5 := by
  decide!

/-- C16: the rendering part of `refresh` is the statements `calls` run in order, and the
keys it passes to `printresource` are the eleven resource keys, each once; they are exactly
the keys of the registry entries with a capacity path: no call of `printresource` is on a
field without one, and for every field with one there is a call of `printresource`, so
that the output of the rendering part, and of the cycle, depends on the value bound to the
key and on the value bound to the capacity key that the query requests. -/
theorem resource_calls_match_registry :
    (∀ vals : Snapshot,
      render vals = (calls.map (Call.run vals)).foldl Outcome.seq (Outcome.done [])) ∧
    (∀ vals : Snapshot,
      (refresh (Fetch.decoded vals)).1 = Act.clear :: (render vals).out.map Act.out) ∧
    resourceKeys =
      ["Elec", "Kero", "LOX", "Hydra", "Aero", "NTO", "MMH", "UDMH", "Xen", "Mono", "Solid"] ∧
    resourceKeys.Nodup ∧
    resourceKeys.Perm ((tab.filter (fun e => e.2.jsonmax ≠ "")).map Prod.fst) ∧
    (∀ k : String, Call.res k ∈ calls ↔ k ∈ resourceKeys) ∧
    (∀ k ∈ resourceKeys, ∃ r, tab.lookup k = some r ∧ r.jsonmax ≠ "") ∧
    (∀ e ∈ tab, e.2.jsonmax = "" → Call.res e.1 ∉ calls) ∧
    (∀ e ∈ tab, e.2.jsonmax ≠ "" →
      Call.res e.1 ∈ calls ∧ e.1 ∈ resourceKeys ∧
      (e.1 ++ "max=" ++ e.2.jsonmax) ∈ queryEntries tab ∧
      printresource (Function.update (single e.1 (Value.num (F64.lit 20))) (e.1 ++ "max")
          (some (Value.num (F64.lit 40)))) e.1
        ≠ printresource (single e.1 (Value.num (F64.lit 20))) e.1 ∧
      render (single e.1 (Value.num (F64.lit 20))) ≠ render (fun _ => none) ∧
      render (Function.update (single e.1 (Value.num (F64.lit 20))) (e.1 ++ "max")
          (some (Value.num (F64.lit 40))))
        ≠ render (single e.1 (Value.num (F64.lit 20))) ∧
      (refresh (Fetch.decoded (Function.update (single e.1 (Value.num (F64.lit 20)))
          (e.1 ++ "max") (some (Value.num (F64.lit 40)))))).1
        ≠ (refresh (Fetch.decoded (single e.1 (Value.num (F64.lit 20))))).1) := by
  have hmem : ∀ k : String, Call.res k ∈ calls ↔ k ∈ resourceKeys := by
    intro k
    simp only [resourceKeys, List.mem_filterMap]
    constructor
    · intro h
      exact ⟨Call.res k, h, rfl⟩
    · rintro ⟨c, hc, hk⟩
      cases c <;> simp at hk
      subst hk
      exact hc
  have h5 : ∀ k ∈ resourceKeys,
      (match tab.lookup k with | some r => decide (r.jsonmax ≠ "") | none => false) = true := by
    decide
  have h6 : ∀ e ∈ tab, e.2.jsonmax ≠ "" →
      e.1 ∈ resourceKeys ∧ (e.1 ++ "max=" ++ e.2.jsonmax) ∈ queryEntries tab := by
    decide
  have h7 : ∀ e ∈ tab, e.2.jsonmax = "" → e.1 ∉ resourceKeys := by
    decide
  refine ⟨render_eq_calls, refresh_decoded, by rfl, by decide, by decide, hmem, ?_, ?_, ?_⟩
  · intro k hk
    have := h5 k hk
    cases hl : tab.lookup k with
    | none => simp [hl] at this
    | some r => exact ⟨r, rfl, by simpa [hl] using this⟩
  · intro e he hempty hcall
    exact h7 e he hempty ((hmem e.1).mp hcall)
  · intro e he hne
    have hk := (h6 e he hne).1
    obtain ⟨l2, l1, l0⟩ := render_resource_lengths e.1 hk
    refine ⟨(hmem e.1).mpr hk, hk, (h6 e he hne).2, printresource_reads_max e.1, ?_, ?_, ?_⟩
    · intro h
      rw [h, l0] at l1
      omega
    · intro h
      rw [h, l1] at l2
      omega
    · intro h
      rw [refresh_decoded, refresh_decoded] at h
      have hlen := congrArg List.length h
      simp only [List.length_cons, List.length_map, l1, l2] at hlen
      omega

/-- Witness of `resource_calls_match_registry`: the kerosene entry of the registry. -/
theorem resource_calls_match_registry_witness :
    render (Function.update (single "Kero" (Value.num (F64.lit 20))) ("Kero" ++ "max")
        (some (Value.num (F64.lit 40))))
      ≠ render (single "Kero" (Value.num (F64.lit 20))) :=
  (resource_calls_match_registry.2.2.2.2.2.2.2.2
    ("Kero", ⟨"r.resource[Kerosene]", "r.resourceMax[Kerosene]", "Kerosene", "L"⟩)
    (by simp [tab]) (by decide)).2.2.2.2.2.1

end Teledump
